import Mathlib

/-!
Verification of the juno-txbuild plan-construction core.

This file gives a shallow embedding of the Go sources of the
`juno-txbuild` repository (package `internal/logic`, the selector and
fee policy; package `pkg/txbuild`, the plan builders) and proves the
specification claims about them.

Machine integers: Go `uint64` values are modelled as `Nat` together
with the explicit bound `U64MAX`; the checked helpers `addUint64` and
`mulUint64` from the source are modelled so that they return `none`
exactly when the Go original reports wrap (for operands in the u64
range).  Where Go performs an unchecked wrapping operation the model
takes an explicit `% 2^64` (or `% 2^32`).
-/

deriving instance DecidableEq for Except

namespace JunoTxbuild

/-- Largest value of a Go `uint64` (`^uint64(0)`). -/
def U64MAX : Nat := 18446744073709551615

/-- Number of values of a Go `uint32`; used for explicit 32-bit wrap. -/
def U32MOD : Nat := 4294967296

/-- Largest value of a Go `uint32` (`^uint32(0)`). -/
def U32MAX : Nat := 4294967295

/-- Model of `strings.TrimSpace` on the character list: strip
whitespace from both ends.  (`String.trim` itself does not reduce in
the kernel, so the model works on `s.data`.) -/
def trimChars (cs : List Char) : List Char :=
  ((cs.dropWhile Char.isWhitespace).reverse.dropWhile Char.isWhitespace).reverse

/-- `strings.TrimSpace`. -/
def goTrim (s : String) : String := ⟨trimChars s.data⟩

/-- Emptiness of a string, via its character list. -/
def goIsEmpty (s : String) : Bool := s.data.isEmpty

/-- ASCII lower-casing of one character: the builders only compare the
lower-cased chain name against ASCII literals. -/
def lowerChar (c : Char) : Char :=
  if 'A' ≤ c ∧ c ≤ 'Z' then Char.ofNat (c.toNat + 32) else c

/-- `strings.ToLower` restricted to ASCII. -/
def goToLower (s : String) : String := ⟨s.data.map lowerChar⟩

/-- Model of `addUint64(a, b)` (logic.go / txbuild.go): Go computes
`sum := a + b` in `uint64` and reports failure when `sum < a`, which for
operands `≤ U64MAX` holds exactly when the mathematical sum exceeds
`U64MAX`. -/
def addUint64 (a b : Nat) : Option Nat :=
  if a + b ≤ U64MAX then some (a + b) else none

/-- Model of `mulUint64(a, b)` (logic.go): zero short-circuits, otherwise
Go reports failure when `a > ^uint64(0) / b` (integer division). -/
def mulUint64 (a b : Nat) : Option Nat :=
  if a = 0 ∨ b = 0 then some 0
  else if a > U64MAX / b then none
  else some (a * b)

/-- `UnspentNote` (logic.go): txid (hex string), action index, value in
base units. -/
structure UnspentNote where
  txid : String
  actionIndex : Nat
  valueZat : Nat
deriving Repr, DecidableEq, Inhabited

/-- `FeePolicy` (logic.go): fee multiplier and additive adjustment. -/
structure FeePolicy where
  multiplier : Nat
  addZat : Nat
deriving Repr, DecidableEq, Inhabited

/-- Errors produced by the `internal/logic` functions.  The Go code uses
`errors.New` with these messages. -/
inductive LogicErr where
  | overflow
  | insufficientFunds
  | invalidTotals
deriving Repr, DecidableEq

/-- `FeePolicy.Apply(base)` (logic.go): a zero multiplier is treated as
1 (`mult` below); the product and the sum are overflow-checked. -/
def FeePolicy.Apply (p : FeePolicy) (base : Nat) : Except LogicErr Nat :=
  match mulUint64 base (if p.multiplier = 0 then 1 else p.multiplier) with
  | none => .error .overflow
  | some v =>
    match addUint64 v p.addZat with
    | none => .error .overflow
    | some v => .ok v

/-- `RequiredFeeSend(spendCount, outputCount)` (logic.go): 5000 base
units per action, with `actions = max(spendCount, outputCount, 2)`. -/
def RequiredFeeSend (spendCount outputCount : Nat) : Nat :=
  let actions := spendCount
  let actions := if outputCount > actions then outputCount else actions
  let actions := if actions < 2 then 2 else actions
  5000 * actions

/-- `SuppressDustChange(totalIn, totalOut, feeZat, minChangeZat)`
(logic.go).  Returns the possibly adjusted fee and whether dust change
was suppressed. -/
def SuppressDustChange (totalIn totalOut feeZat minChangeZat : Nat) :
    Except LogicErr (Nat × Bool) :=
  if minChangeZat = 0 then .ok (feeZat, false)
  else if totalIn < totalOut then .error .invalidTotals
  else
    let rem := totalIn - totalOut
    if rem < feeZat then .error .invalidTotals
    else
      let change := rem - feeZat
      if change = 0 ∨ change ≥ minChangeZat then .ok (feeZat, false)
      else
        match addUint64 feeZat change with
        | none => .error .overflow
        | some newFee => .ok (newFee, true)

/-- Sum of the values of a list of notes. -/
def sumVals (ns : List UnspentNote) : Nat :=
  ns.foldr (fun n acc => n.valueZat + acc) 0

/-- Overflow-checked left-to-right sum of note values, as the plan
builders compute `totalIn` with repeated `addUint64`. -/
def sumValsChecked (ns : List UnspentNote) : Option Nat :=
  ns.foldlM (fun acc n => addUint64 acc n.valueZat) 0

/-! ### Note ordering and sorting

`SelectNotesWithFeePolicy` sorts with `sort.Slice` under the strict
comparators below.  `sort.Slice` is unstable, but both comparators
tie-break on every field of `UnspentNote`, so elements the comparator
treats as equal are equal records; every arrangement sorted under the
comparator is therefore the same list, and an insertion sort computes
it. -/

/-- Go's `s < t` on strings: lexicographic comparison, here on the
character sequences. -/
def goStrLtL : List Char → List Char → Bool
  | [], [] => false
  | [], _ :: _ => true
  | _ :: _, [] => false
  | a :: as, b :: bs =>
    if a.toNat < b.toNat then true
    else if b.toNat < a.toNat then false
    else goStrLtL as bs

/-- Go's `s < t` lifted to strings. -/
def goStrLt (s t : String) : Bool :=
  goStrLtL s.data t.data

/-- The ascending comparator of `sortByAsc` (logic.go): value, then
txid, then action index, all ascending. -/
def noteLtAsc (x y : UnspentNote) : Bool :=
  if x.valueZat ≠ y.valueZat then decide (x.valueZat < y.valueZat)
  else if x.txid ≠ y.txid then goStrLt x.txid y.txid
  else decide (x.actionIndex < y.actionIndex)

/-- The descending comparator of `sortByDesc` (logic.go): value
descending, then txid and action index ascending. -/
def noteLtDesc (x y : UnspentNote) : Bool :=
  if x.valueZat ≠ y.valueZat then decide (x.valueZat > y.valueZat)
  else if x.txid ≠ y.txid then goStrLt x.txid y.txid
  else decide (x.actionIndex < y.actionIndex)

/-- Insert into a list sorted under strict comparator `lt`. -/
def insertByLt (lt : UnspentNote → UnspentNote → Bool) (a : UnspentNote) :
    List UnspentNote → List UnspentNote
  | [] => [a]
  | b :: bs => if lt b a then b :: insertByLt lt a bs else a :: b :: bs

/-- Insertion sort under strict comparator `lt`. -/
def sortByLt (lt : UnspentNote → UnspentNote → Bool)
    (l : List UnspentNote) : List UnspentNote :=
  l.foldr (insertByLt lt) []

/-- `sortByAsc` applied to a fresh copy of the notes (logic.go). -/
def sortNotesAsc (l : List UnspentNote) : List UnspentNote :=
  sortByLt noteLtAsc l

/-- `sortByDesc` applied to a fresh copy of the notes (logic.go). -/
def sortNotesDesc (l : List UnspentNote) : List UnspentNote :=
  sortByLt noteLtDesc l

/-! ### The canonical selector `SelectNotesWithFeePolicy` (logic.go) -/

/-- The closure `neededTotal(spendCount, outputs)` of
`SelectNotesWithFeePolicy`: policy-applied fee for the given counts and
the amount-plus-fee target, both overflow-checked. -/
def neededTotal (amountZat : Nat) (p : FeePolicy) (spendCount outputs : Nat) :
    Except LogicErr (Nat × Nat) :=
  match p.Apply (RequiredFeeSend spendCount outputs) with
  | .error e => .error e
  | .ok fee =>
    match addUint64 amountZat fee with
    | none => .error .overflow
    | some need => .ok (need, fee)

/-- First note of the list satisfying `q`, scanning front to back: the
two `for … range notesAsc` searches of strategies 1 and 2. -/
def scanFirst (q : UnspentNote → Bool) : List UnspentNote → Option UnspentNote
  | [] => none
  | n :: ns => if q n then some n else scanFirst q ns

/-- The two-pointer scan of strategy 3 (logic.go): indices `i < j` over
the ascending list; an exact pair sums to `need`.  The loop narrows
`j - i` by exactly one each iteration, which the structural `fuel`
argument mirrors so that the definition computes in the kernel; the
wrapper `twoPointer` below instantiates the fuel with the initial gap.
Exhausted fuel coincides with the loop's `i < j` exit. -/
def twoPointerFuel (asc : List UnspentNote) (need : Nat) :
    Nat → Nat → Nat → Except LogicErr (Option (UnspentNote × UnspentNote))
  | 0, _, _ => .ok none
  | fuel + 1, i, j =>
    if i < j then
      match addUint64 (asc.getD i default).valueZat
          (asc.getD j default).valueZat with
      | none => .error .overflow
      | some sum =>
        if sum = need then .ok (some (asc.getD i default, asc.getD j default))
        else if sum < need then twoPointerFuel asc need fuel (i + 1) j
        else twoPointerFuel asc need fuel i (j - 1)
    else .ok none

/-- The two-pointer scan entered at indices `i < j`. -/
def twoPointer (asc : List UnspentNote) (need : Nat) (i j : Nat) :
    Except LogicErr (Option (UnspentNote × UnspentNote)) :=
  twoPointerFuel asc need (j - i) i j

/-- Model of the `sort.Search` call of strategy 4: `sort.Search(n, f)`
returns the least index in `[0, n)` whose (monotone) predicate holds,
or `n`; here the search starts at slice offset `start` and looks for
the first note of value at least `bNeed`, returning `asc.length` when
none exists.  The structural `fuel` mirrors the remaining slice
length; exhausted fuel coincides with running off the end. -/
def searchFirstGeFuel (asc : List UnspentNote) (bNeed : Nat) :
    Nat → Nat → Nat
  | 0, _ => asc.length
  | fuel + 1, start =>
    if start < asc.length then
      if (asc.getD start default).valueZat ≥ bNeed then start
      else searchFirstGeFuel asc bNeed fuel (start + 1)
    else asc.length

/-- The search entered at `start`. -/
def searchFirstGe (asc : List UnspentNote) (start bNeed : Nat) : Nat :=
  searchFirstGeFuel asc bNeed (asc.length - start) start

/-- Running best pair of strategy 4. -/
structure BestFitState where
  found : Bool
  bestSum : Nat
  bestI : Nat
  bestJ : Nat
deriving Repr, DecidableEq, Inhabited

/-- The strategy-4 loop (logic.go): for each ascending `i`, search for
the smallest `j > i` with `value[i] + value[j] ≥ need`; keep the
minimum sum, tie-broken by lower `i` then lower `j`.  The structural
`fuel` mirrors `asc.length - i`; exhausted fuel coincides with the
loop's exit condition. -/
def bestFitLoopFuel (asc : List UnspentNote) (need : Nat) :
    Nat → Nat → BestFitState → Except LogicErr BestFitState
  | 0, _, st => .ok st
  | fuel + 1, i, st =>
    if i + 1 < asc.length then
      if (asc.getD i default).valueZat ≥ need then .ok st
      else
        let j := searchFirstGe asc (i + 1) (need - (asc.getD i default).valueZat)
        if j ≤ i ∨ j ≥ asc.length then bestFitLoopFuel asc need fuel (i + 1) st
        else
          match addUint64 (asc.getD i default).valueZat
              (asc.getD j default).valueZat with
          | none => .error .overflow
          | some sum =>
            let takeIt := !st.found || sum < st.bestSum ||
              (sum = st.bestSum ∧
                (i < st.bestI ∨ (i = st.bestI ∧ j < st.bestJ)))
            bestFitLoopFuel asc need fuel (i + 1)
              (if takeIt then ⟨true, sum, i, j⟩ else st)
    else .ok st

/-- The strategy-4 loop entered at index `i`. -/
def bestFitLoop (asc : List UnspentNote) (need : Nat) (i : Nat)
    (st : BestFitState) : Except LogicErr BestFitState :=
  bestFitLoopFuel asc need (asc.length - i) i st

/-- The greedy fallback loop of strategy 5 (logic.go): accumulate
largest-first; at each step test exact equality against the no-change
need, then `≥` against the with-change need. -/
def greedyLoop (amountZat : Nat) (p : FeePolicy) (outputCount : Nat) :
    List UnspentNote → List UnspentNote → Nat →
    Except LogicErr (List UnspentNote × Nat)
  | [], _, _ => .error .insufficientFunds
  | n :: rest, selected, total =>
    let selected := selected ++ [n]
    match addUint64 total n.valueZat with
    | none => .error .overflow
    | some total =>
      match neededTotal amountZat p selected.length outputCount with
      | .error e => .error e
      | .ok (needNoChange, feeNoChange) =>
        if total = needNoChange then .ok (selected, feeNoChange)
        else
          match neededTotal amountZat p selected.length (outputCount + 1) with
          | .error e => .error e
          | .ok (needWithChange, feeWithChange) =>
            if total ≥ needWithChange then .ok (selected, feeWithChange)
            else greedyLoop amountZat p outputCount rest selected total

/-- `SelectNotesWithFeePolicy(notes, amountZat, outputCount, feePolicy)`
(logic.go): the five-strategy cascade.  The slices `notesAsc` and
`notesDesc` are sorted copies of `notes`. -/
def SelectNotesWithFeePolicy (notes : List UnspentNote) (amountZat : Nat)
    (outputCount : Nat) (p : FeePolicy) :
    Except LogicErr (List UnspentNote × Nat) :=
  if notes.length = 0 then .error .insufficientFunds
  else
    let notesAsc := sortNotesAsc notes
    -- 1-note exact match with no change output.
    match neededTotal amountZat p 1 outputCount with
    | .error e => .error e
    | .ok (need1, fee1) =>
      match scanFirst (fun n => n.valueZat == need1) notesAsc with
      | some n => .ok ([n], fee1)
      | none =>
        -- 1-note best fit (fee assumes a change output).
        match neededTotal amountZat p 1 (outputCount + 1) with
        | .error e => .error e
        | .ok (need2, fee2) =>
          match scanFirst (fun n => n.valueZat ≥ need2) notesAsc with
          | some n => .ok ([n], fee2)
          | none =>
            -- 2-note exact match with no change output.
            match neededTotal amountZat p 2 outputCount with
            | .error e => .error e
            | .ok (need3, fee3) =>
              match
                (if notesAsc.length ≥ 2 then
                  twoPointer notesAsc need3 0 (notesAsc.length - 1)
                else .ok none) with
              | .error e => .error e
              | .ok (some (a, b)) => .ok ([a, b], fee3)
              | .ok none =>
                -- 2-note best fit (fee assumes a change output).
                match neededTotal amountZat p 2 (outputCount + 1) with
                | .error e => .error e
                | .ok (need4, fee4) =>
                  match
                    (if notesAsc.length ≥ 2 then
                      bestFitLoop notesAsc need4 0 ⟨false, 0, 0, 0⟩
                    else .ok ⟨false, 0, 0, 0⟩) with
                  | .error e => .error e
                  | .ok st =>
                    if st.found then
                      .ok ([notesAsc.getD st.bestI default,
                            notesAsc.getD st.bestJ default], fee4)
                    else
                      -- Greedy fallback (largest-first).
                      greedyLoop amountZat p outputCount
                        (sortNotesDesc notes) [] 0

/-- `SelectNotes` (logic.go): the selector under the default fee
policy. -/
def SelectNotes (notes : List UnspentNote) (amountZat outputCount : Nat) :
    Except LogicErr (List UnspentNote × Nat) :=
  SelectNotesWithFeePolicy notes amountZat outputCount ⟨0, 0⟩

/-! ### The historical greedy-descending selector

The repository history carries an earlier `logic.go` whose
`SelectNotesWithFeePolicy` is a pure greedy-descending scheme: sort the
notes descending (in place, on the caller's slice) and accumulate until
the running total strictly exceeds the with-change need, or equals it
while the no-change fee coincides with the with-change fee. -/

/-- The accumulation loop of the historical selector. -/
def legacyLoop (amountZat : Nat) (p : FeePolicy) (outputCount : Nat) :
    List UnspentNote → List UnspentNote → Nat →
    Except LogicErr (List UnspentNote × Nat)
  | [], _, _ => .error .insufficientFunds
  | n :: rest, selected, total =>
    let selected := selected ++ [n]
    match addUint64 total n.valueZat with
    | none => .error .overflow
    | some total =>
      match p.Apply (RequiredFeeSend selected.length (outputCount + 1)) with
      | .error e => .error e
      | .ok feeWithChange =>
        match addUint64 amountZat feeWithChange with
        | none => .error .overflow
        | some need =>
          if total > need then .ok (selected, feeWithChange)
          else if total = need then
            match p.Apply (RequiredFeeSend selected.length outputCount) with
            | .error e => .error e
            | .ok feeNoChange =>
              if feeNoChange = feeWithChange then .ok (selected, feeWithChange)
              else legacyLoop amountZat p outputCount rest selected total
          else legacyLoop amountZat p outputCount rest selected total

/-- The historical `SelectNotesWithFeePolicy`: greedy descending only. -/
def LegacySelectNotesWithFeePolicy (notes : List UnspentNote)
    (amountZat outputCount : Nat) (p : FeePolicy) :
    Except LogicErr (List UnspentNote × Nat) :=
  legacyLoop amountZat p outputCount (sortNotesDesc notes) [] 0

/-! ### The consolidation selector (txbuild.go) -/

/-- Error type of `pkg/txbuild`: the Go code returns either a
`types.CodedError` with a machine-readable code, or a plain internal
error built with `errors.New`. -/
inductive ErrCode where
  | invalidRequest
  | insufficientBalance
deriving Repr, DecidableEq

/-- A surfaced plan-builder error. -/
inductive PlanErr where
  | coded (code : ErrCode) (msg : String)
  | internal (msg : String)
deriving Repr, DecidableEq

/-- Entry `t` of the `prefix` array of `selectNotesForConsolidation`:
sum of the `t` smallest notes.  The Go code builds the array with
checked adds; `selectNotesForConsolidation` below fails up front when
the total of all notes wraps a u64, after which every entry is this
exact sum. -/
def takeSum (l : List UnspentNote) (t : Nat) : Nat :=
  sumVals (l.take t)

/-- Entry `m` of the `suffix` array: sum of the `m` largest notes, i.e.
of the last `m` notes of the ascending list. -/
def lastSum (l : List UnspentNote) (m : Nat) : Nat :=
  sumVals (l.drop (l.length - m))

/-- The inner `t`-loop of `selectNotesForConsolidation`: try
`t = k, k-1, …, 0`, taking the `t` smallest and `k - t` largest, and
stop at the first partition whose total strictly exceeds the fee. -/
def consTLoop (asc : List UnspentNote) (feeZat k : Nat) :
    Nat → Except PlanErr (Option Nat)
  | 0 =>
    match addUint64 (takeSum asc 0) (lastSum asc (k - 0)) with
    | none => .error (.internal "txbuild: notes sum overflow")
    | some total => if total > feeZat then .ok (some 0) else .ok none
  | t + 1 =>
    match addUint64 (takeSum asc (t + 1)) (lastSum asc (k - (t + 1))) with
    | none => .error (.internal "txbuild: notes sum overflow")
    | some total =>
      if total > feeZat then .ok (some (t + 1))
      else consTLoop asc feeZat k t

/-- The outer `k`-loop of `selectNotesForConsolidation`: try
`k = maxSpends, …, 2`; for the first `k` with a qualifying partition
`t`, return the `t` smallest and `k - t` largest notes with that `k`'s
policy-applied fee. -/
def consKLoop (asc : List UnspentNote) (p : FeePolicy) :
    Nat → Except PlanErr (List UnspentNote × Nat)
  | 0 => .error (.coded .insufficientBalance "insufficient funds")
  | 1 => .error (.coded .insufficientBalance "insufficient funds")
  | k + 2 =>
    match p.Apply (RequiredFeeSend (k + 2) 1) with
    | .error _ => .error (.internal "overflow")
    | .ok feeZat =>
      match consTLoop asc feeZat (k + 2) (k + 2) with
      | .error e => .error e
      | .ok (some bestT) =>
        let selected := asc.take bestT ++
          (if k + 2 - bestT > 0 then
            asc.drop (asc.length - (k + 2 - bestT)) else [])
        .ok (selected, feeZat)
      | .ok none => consKLoop asc p (k + 1)

/-- `selectNotesForConsolidation(notes, maxSpends, feePolicy)`
(txbuild.go).  `maxSpends` is a Go `int`: non-positive values default
to 50, it is capped to the note count, and fewer than 2 effective
spends is an invalid request.  The `prefix`/`suffix` sum arrays are
built with checked adds, so a u64 wrap of the total of all notes fails
before any `k` is tried. -/
def selectNotesForConsolidation (notes : List UnspentNote) (maxSpends : Int)
    (p : FeePolicy) : Except PlanErr (List UnspentNote × Nat) :=
  let maxSpends := if maxSpends ≤ 0 then 50 else maxSpends
  let maxSpends := if maxSpends > notes.length then (notes.length : Int) else maxSpends
  if maxSpends < 2 then
    .error (.coded .invalidRequest "max_spends must be >= 2")
  else
    let asc := sortNotesAsc notes
    match sumValsChecked asc with
    | none => .error (.internal "txbuild: notes sum overflow")
    | some _ => consKLoop asc p maxSpends.toNat

/-! ### Decimal parsing (logic.go) -/

/-- Errors of the decimal parsers.  The Go code distinguishes them by
`errors.New` message or by the `strconv` error kind. -/
inductive ParseErr where
  | empty
  | negative
  | tooManyDecimals
  | badSyntax
  | outOfRange
  | overflow
deriving Repr, DecidableEq

/-- Value of a digit string, most significant first. -/
def digitsVal (cs : List Char) : Nat :=
  cs.foldl (fun a c => a * 10 + (c.toNat - 48)) 0

/-- Model of `strconv.ParseUint(s, 10, 64)`: a non-empty string of
ASCII digits whose value fits a u64; no sign, no underscores. -/
def goParseUint64 (cs : List Char) : Except ParseErr Nat :=
  if cs.isEmpty then .error .badSyntax
  else if ¬ cs.all Char.isDigit then .error .badSyntax
  else if digitsVal cs > U64MAX then .error .outOfRange
  else .ok (digitsVal cs)

/-- `ParseUint64Decimal` (logic.go): trim, reject empty, then
`strconv.ParseUint(s, 10, 64)`. -/
def ParseUint64Decimal (s : String) : Except ParseErr Nat :=
  let s := goTrim s
  if goIsEmpty s then .error .empty
  else goParseUint64 s.data

/-- Model of `strings.Cut(s, ".")`: the parts before and after the
first `'.'`; the second part is empty when there is no dot. -/
def cutDot : List Char → List Char × List Char
  | [] => ([], [])
  | c :: cs =>
    if c = '.' then ([], cs)
    else
      let (before, after) := cutDot cs
      (c :: before, after)

/-- `ParseZECToZat` (logic.go): trim; reject empty and negative; split
at the first `'.'`; an empty whole part reads as `"0"`; at most 8
fractional digits, padded to 8 with zeros; both parts parse as u64
decimals; the whole part must satisfy `w ≤ ^uint64(0)/1e8`; the result
is the Go `uint64` expression `w*100_000_000 + f`, which is unchecked
and therefore wraps modulo 2^64. -/
def ParseZECToZat (s : String) : Except ParseErr Nat :=
  let s := goTrim s
  if goIsEmpty s then .error .empty
  else if s.data.head? = some '-' then .error .negative
  else
    let (whole, frac) := cutDot s.data
    let whole := if whole.isEmpty then ['0'] else whole
    if frac.length > 8 then .error .tooManyDecimals
    else
      let frac := frac ++ List.replicate (8 - frac.length) '0'
      match goParseUint64 whole with
      | .error e => .error e
      | .ok w =>
        match goParseUint64 frac with
        | .error e => .error e
        | .ok f =>
          if w > U64MAX / 100000000 then .error .overflow
          else .ok ((w * 100000000 + f) % (U64MAX + 1))

/-! ### The plan builders (txbuild.go)

The builders are modelled over an environment that supplies the
responses of the two collaborators used by the direct-node path: the
node RPC (`GetChainInfo`, `BuildOrchardIndex`,
`listUnspentOrchardNotes`) and the witness computation
(`witness.OrchardWitness`, whose implementation lives outside the
selection logic).  The environment models *successful* collaborator
responses; a transport failure aborts the plan verbatim in the source
and carries no plan-construction logic. -/

/-- `types.TxOutput`: destination address, decimal amount string,
optional memo hex. -/
structure TxOutput where
  toAddress : String
  amountZat : String
  memoHex : String
deriving Repr, DecidableEq, Inhabited

/-- `types.TxPlanKind`.  The builder accepts the three known kinds and
rejects anything else. -/
inductive TxPlanKind where
  | withdrawal
  | sweep
  | rebalance
  | other (s : String)
deriving Repr, DecidableEq, Inhabited

/-- Chain info returned by `getblockchaininfo` (internal/chain). -/
structure ChainInfo where
  chain : String
  branchID : Nat
  height : Int
deriving Repr, DecidableEq

/-- An entry of `orchard.ByOutpoint` (internal/chain): the resolved
on-chain action for a `"txid:action_index"` key, plus its leaf
position. -/
structure OrchardAct where
  nullifier : String
  cmx : String
  ephemeralKey : String
  encCiphertext : String
  position : Nat
deriving Repr, DecidableEq, Inhabited

/-- One authentication path of a witness response. -/
structure WitnessPath where
  position : Nat
  authPath : List String
deriving Repr, DecidableEq, Inhabited

/-- Result of `witness.OrchardWitness`. -/
structure WitnessResult where
  root : String
  paths : List WitnessPath
deriving Repr, DecidableEq, Inhabited

/-- Collaborator responses consumed by the direct-node plan path. -/
structure PlanEnv where
  chainInfo : ChainInfo
  cmxCount : Nat
  byOutpoint : List (String × OrchardAct)
  notes : List UnspentNote
  witnessResult : WitnessResult
deriving Repr, DecidableEq

/-- `types.OrchardSpendNote` as assembled by the builders. -/
structure OrchardSpendNote where
  noteID : String
  actionNullifier : String
  cmx : String
  position : Nat
  path : List String
  ephemeralKey : String
  encCiphertext : String
deriving Repr, DecidableEq, Inhabited

/-- `types.TxPlan` (version v0).  Where the Go struct stores formatted
decimal strings (`FeeZat`, and the sweep/consolidate output amount via
`strconv.FormatUint`), the model keeps the numeric value that is
formatted. -/
structure TxPlanModel where
  kind : TxPlanKind
  walletID : String
  coinType : Nat
  account : Nat
  chain : String
  branchID : Nat
  anchorHeight : Nat
  anchor : String
  expiryHeight : Nat
  outputs : List TxOutput
  changeAddress : String
  feeZat : Nat
  notes : List OrchardSpendNote
deriving Repr, DecidableEq, Inhabited

/-- A successful plan together with the builder's internal selection
and output total, exposed so the accounting invariants can speak about
the selected input values (the emitted plan itself does not carry note
values). -/
structure PlanOutcome where
  plan : TxPlanModel
  selected : List UnspentNote
  totalOutZat : Nat
deriving Repr, DecidableEq, Inhabited

/-- The expiry computation shared by all builders (txbuild.go): Go
`uint32` addition `anchorHeight + expiryOffset` (which wraps), failing
when the wrapped value fell below `anchorHeight`. -/
def planExpiryHeight (anchorHeight expiryOffset : Nat) : Except PlanErr Nat :=
  let e := (anchorHeight + expiryOffset) % U32MOD
  if e < anchorHeight then .error (.internal "txbuild: expiry height overflow")
  else .ok e

/-- Coin-type resolution shared by all builders (txbuild.go): a
caller-provided non-zero value wins, otherwise derive from the chain
name. -/
def resolveCoinType (cfgCoinType : Nat) (chain : String) :
    Except PlanErr Nat :=
  if cfgCoinType ≠ 0 then .ok cfgCoinType
  else
    let c := goToLower (goTrim chain)
    if c = "main" then .ok 8133
    else if c = "test" then .ok 8134
    else if c = "regtest" then .ok 8135
    else .error (.coded .invalidRequest "unknown chain")

/-- Chain-height validation shared by all builders (txbuild.go):
negative heights and heights above `^uint32(0)` are rejected; the
anchor height is the `uint32` value. -/
def anchorHeightOf (height : Int) : Except PlanErr Nat :=
  if height < 0 then .error (.internal "txbuild: invalid chain height")
  else if height > (U32MAX : Int) then
    .error (.internal "txbuild: chain height too large")
  else .ok height.toNat

/-- The output-validation loop of `Plan` (txbuild.go): trim each
output's fields, require a destination and an amount, parse the amount
as a decimal u64 rejecting zero, and accumulate the overflow-checked
total.  (The Go error messages carry the output index; the model keeps
fixed messages.) -/
def validateOutputs : List TxOutput → Nat → Except PlanErr (List TxOutput × Nat)
  | [], totalOut => .ok ([], totalOut)
  | o :: rest, totalOut =>
    let o : TxOutput :=
      ⟨goTrim o.toAddress, goTrim o.amountZat, goTrim o.memoHex⟩
    if goIsEmpty o.toAddress then
      .error (.coded .invalidRequest "to_address required")
    else if goIsEmpty o.amountZat then
      .error (.coded .invalidRequest "amount_zat required")
    else
      match ParseUint64Decimal o.amountZat with
      | .error _ => .error (.coded .invalidRequest "amount_zat invalid")
      | .ok amt =>
        if amt = 0 then .error (.coded .invalidRequest "amount_zat invalid")
        else
          match addUint64 totalOut amt with
          | none => .error (.coded .invalidRequest "outputs sum overflow")
          | some totalOut =>
            match validateOutputs rest totalOut with
            | .error e => .error e
            | .ok (os, t) => .ok (o :: os, t)

/-- The `"txid:action_index"` outpoint key. -/
def outpointKey (n : UnspentNote) : String :=
  n.txid ++ ":" ++ toString n.actionIndex

/-- The per-note assembly loop shared by the builders: resolve each
selected note through the orchard index to a plan note (path still
unattached) and collect the positions. -/
def buildPlanNotes (byOutpoint : List (String × OrchardAct)) :
    List UnspentNote → Except PlanErr (List OrchardSpendNote × List Nat)
  | [] => .ok ([], [])
  | n :: rest =>
    let key := outpointKey n
    match byOutpoint.lookup key with
    | none => .error (.internal "txbuild: missing orchard action for selected note")
    | some act =>
      match buildPlanNotes byOutpoint rest with
      | .error e => .error e
      | .ok (ns, ps) =>
        .ok (⟨key, act.nullifier, act.cmx, act.position, [],
              act.ephemeralKey, act.encCiphertext⟩ :: ns,
             act.position :: ps)

/-- The witness-attachment loop shared by the builders: the response
must have one path per note, each at the note's position, and the
paths are attached in order. -/
def attachPaths : List OrchardSpendNote → List WitnessPath →
    Except PlanErr (List OrchardSpendNote)
  | [], [] => .ok []
  | n :: ns, p :: ps =>
    if p.position ≠ n.position then
      .error (.internal "txbuild: witness response mismatch")
    else
      match attachPaths ns ps with
      | .error e => .error e
      | .ok rest => .ok ({ n with path := p.authPath } :: rest)
  | _, _ => .error (.internal "txbuild: witness response mismatch")

/-- Whether a plan kind is one of the three the builder accepts. -/
def kindSupported : TxPlanKind → Bool
  | .withdrawal => true
  | .sweep => true
  | .rebalance => true
  | .other _ => false

/-- `PlanConfig` (txbuild.go), restricted to the fields the direct-node
path reads.  RPC credentials beyond the URL and the scan URL select
collaborator transports and are out of model scope. -/
structure PlanConfig where
  rpcURL : String
  walletID : String
  coinType : Nat
  account : Nat
  kind : TxPlanKind
  outputs : List TxOutput
  changeAddress : String
  minConfirmations : Int
  expiryOffset : Nat
  feeMultiplier : Nat
  feeAddZat : Nat
  minChangeZat : Nat
deriving Repr, DecidableEq

/-- `Plan(ctx, cfg)` (txbuild.go), direct-node path: validation, chain
info, candidate notes, selection, dust suppression, action resolution,
witness checks, expiry, assembly. -/
def PlanModel (cfg : PlanConfig) (env : PlanEnv) : Except PlanErr PlanOutcome :=
  let rpcURL := goTrim cfg.rpcURL
  let walletID := goTrim cfg.walletID
  let changeAddress := goTrim cfg.changeAddress
  if goIsEmpty rpcURL then .error (.coded .invalidRequest "rpc url required")
  else if goIsEmpty walletID then .error (.coded .invalidRequest "wallet_id required")
  else if ¬ kindSupported cfg.kind then
    .error (.coded .invalidRequest "unsupported kind")
  else if cfg.outputs.isEmpty then .error (.coded .invalidRequest "outputs required")
  else if goIsEmpty changeAddress then
    .error (.coded .invalidRequest "change_address required")
  else
    let expiryOffset := if cfg.expiryOffset = 0 then 40 else cfg.expiryOffset
    let feeMultiplier := if cfg.feeMultiplier = 0 then 1 else cfg.feeMultiplier
    match validateOutputs cfg.outputs 0 with
    | .error e => .error e
    | .ok (outputs, totalOut) =>
      match resolveCoinType cfg.coinType env.chainInfo.chain with
      | .error e => .error e
      | .ok coinType =>
        match anchorHeightOf env.chainInfo.height with
        | .error e => .error e
        | .ok anchorHeight =>
          if env.cmxCount = 0 then
            .error (.internal "txbuild: no orchard commitments")
          else if env.notes.isEmpty then
            .error (.coded .insufficientBalance "no spendable notes")
          else
            let feePolicy : FeePolicy := ⟨feeMultiplier, cfg.feeAddZat⟩
            match SelectNotesWithFeePolicy env.notes totalOut
                cfg.outputs.length feePolicy with
            | .error _ => .error (.coded .insufficientBalance "insufficient funds")
            | .ok (selected, feeZat0) =>
              match sumValsChecked selected with
              | none => .error (.internal "txbuild: selected notes sum overflow")
              | some totalIn =>
                match SuppressDustChange totalIn totalOut feeZat0
                    cfg.minChangeZat with
                | .error _ => .error (.internal "suppress dust change failed")
                | .ok (feeZat, _) =>
                  match buildPlanNotes env.byOutpoint selected with
                  | .error e => .error e
                  | .ok (planNotes, _positions) =>
                    if env.witnessResult.paths.length ≠ planNotes.length then
                      .error (.internal "txbuild: witness response mismatch")
                    else
                      match attachPaths planNotes env.witnessResult.paths with
                      | .error e => .error e
                      | .ok notes =>
                        match planExpiryHeight anchorHeight expiryOffset with
                        | .error e => .error e
                        | .ok expiryHeight =>
                          .ok ⟨⟨cfg.kind, walletID, coinType, cfg.account,
                                env.chainInfo.chain, env.chainInfo.branchID,
                                anchorHeight, env.witnessResult.root,
                                expiryHeight, outputs, changeAddress, feeZat,
                                notes⟩, selected, totalOut⟩

/-- `SweepConfig` (txbuild.go), restricted as for `PlanConfig`. -/
structure SweepConfig where
  rpcURL : String
  walletID : String
  coinType : Nat
  account : Nat
  toAddress : String
  memoHex : String
  changeAddress : String
  minConfirmations : Int
  expiryOffset : Nat
  feeMultiplier : Nat
  feeAddZat : Nat
deriving Repr, DecidableEq

/-- `PlanSweep(ctx, cfg)` (txbuild.go), direct-node path: spend every
candidate note; the single output carries the total minus the fee; no
change. -/
def PlanSweepModel (cfg : SweepConfig) (env : PlanEnv) :
    Except PlanErr PlanOutcome :=
  let rpcURL := goTrim cfg.rpcURL
  let walletID := goTrim cfg.walletID
  let toAddress := goTrim cfg.toAddress
  let memoHex := goTrim cfg.memoHex
  let changeAddress := goTrim cfg.changeAddress
  if goIsEmpty rpcURL then .error (.coded .invalidRequest "rpc url required")
  else if goIsEmpty walletID then .error (.coded .invalidRequest "wallet_id required")
  else if goIsEmpty toAddress then .error (.coded .invalidRequest "to required")
  else
    let changeAddress := if goIsEmpty changeAddress then toAddress else changeAddress
    let expiryOffset := if cfg.expiryOffset = 0 then 40 else cfg.expiryOffset
    let feeMultiplier := if cfg.feeMultiplier = 0 then 1 else cfg.feeMultiplier
    match resolveCoinType cfg.coinType env.chainInfo.chain with
    | .error e => .error e
    | .ok coinType =>
      match anchorHeightOf env.chainInfo.height with
      | .error e => .error e
      | .ok anchorHeight =>
        if env.cmxCount = 0 then
          .error (.internal "txbuild: no orchard commitments")
        else if env.notes.isEmpty then
          .error (.coded .insufficientBalance "no spendable notes")
        else
          match sumValsChecked env.notes with
          | none => .error (.internal "txbuild: notes sum overflow")
          | some totalIn =>
            let feePolicy : FeePolicy := ⟨feeMultiplier, cfg.feeAddZat⟩
            match feePolicy.Apply (RequiredFeeSend env.notes.length 1) with
            | .error _ => .error (.internal "overflow")
            | .ok feeZat =>
              if totalIn ≤ feeZat then
                .error (.coded .insufficientBalance "insufficient funds")
              else
                let amount := totalIn - feeZat
                match buildPlanNotes env.byOutpoint env.notes with
                | .error e => .error e
                | .ok (planNotes, _positions) =>
                  if env.witnessResult.paths.length ≠ planNotes.length then
                    .error (.internal "txbuild: witness response mismatch")
                  else
                    match attachPaths planNotes env.witnessResult.paths with
                    | .error e => .error e
                    | .ok notes =>
                      match planExpiryHeight anchorHeight expiryOffset with
                      | .error e => .error e
                      | .ok expiryHeight =>
                        .ok ⟨⟨.sweep, walletID, coinType, cfg.account,
                              env.chainInfo.chain, env.chainInfo.branchID,
                              anchorHeight, env.witnessResult.root,
                              expiryHeight,
                              [⟨toAddress, toString amount, memoHex⟩],
                              changeAddress, feeZat, notes⟩,
                             env.notes, amount⟩

/-- `ConsolidateConfig` (txbuild.go), restricted as for `PlanConfig`. -/
structure ConsolidateConfig where
  rpcURL : String
  walletID : String
  coinType : Nat
  account : Nat
  toAddress : String
  memoHex : String
  changeAddress : String
  maxSpends : Int
  minConfirmations : Int
  expiryOffset : Nat
  feeMultiplier : Nat
  feeAddZat : Nat
deriving Repr, DecidableEq

/-- `PlanConsolidate(ctx, cfg)` (txbuild.go), direct-node path:
consolidate at least two notes into a single output. -/
def PlanConsolidateModel (cfg : ConsolidateConfig) (env : PlanEnv) :
    Except PlanErr PlanOutcome :=
  let rpcURL := goTrim cfg.rpcURL
  let walletID := goTrim cfg.walletID
  let toAddress := goTrim cfg.toAddress
  let memoHex := goTrim cfg.memoHex
  let changeAddress := goTrim cfg.changeAddress
  if goIsEmpty rpcURL then .error (.coded .invalidRequest "rpc url required")
  else if goIsEmpty walletID then .error (.coded .invalidRequest "wallet_id required")
  else if goIsEmpty toAddress then .error (.coded .invalidRequest "to required")
  else
    let changeAddress := if goIsEmpty changeAddress then toAddress else changeAddress
    let maxSpends : Int := if cfg.maxSpends ≤ 0 then 50 else cfg.maxSpends
    let expiryOffset := if cfg.expiryOffset = 0 then 40 else cfg.expiryOffset
    let feeMultiplier := if cfg.feeMultiplier = 0 then 1 else cfg.feeMultiplier
    match resolveCoinType cfg.coinType env.chainInfo.chain with
    | .error e => .error e
    | .ok coinType =>
      match anchorHeightOf env.chainInfo.height with
      | .error e => .error e
      | .ok anchorHeight =>
        if env.cmxCount = 0 then
          .error (.internal "txbuild: no orchard commitments")
        else if env.notes.length < 2 then
          .error (.coded .invalidRequest "not enough spendable notes to consolidate")
        else
          let feePolicy : FeePolicy := ⟨feeMultiplier, cfg.feeAddZat⟩
          match selectNotesForConsolidation env.notes maxSpends feePolicy with
          | .error e => .error e
          | .ok (selected, feeZat) =>
            match sumValsChecked selected with
            | none => .error (.internal "txbuild: selected notes sum overflow")
            | some totalIn =>
              if totalIn ≤ feeZat then
                .error (.coded .insufficientBalance "insufficient funds")
              else
                let amount := totalIn - feeZat
                match buildPlanNotes env.byOutpoint selected with
                | .error e => .error e
                | .ok (planNotes, _positions) =>
                  if env.witnessResult.paths.length ≠ planNotes.length then
                    .error (.internal "txbuild: witness response mismatch")
                  else
                    match attachPaths planNotes env.witnessResult.paths with
                    | .error e => .error e
                    | .ok notes =>
                      match planExpiryHeight anchorHeight expiryOffset with
                      | .error e => .error e
                      | .ok expiryHeight =>
                        .ok ⟨⟨.rebalance, walletID, coinType, cfg.account,
                              env.chainInfo.chain, env.chainInfo.branchID,
                              anchorHeight, env.witnessResult.root,
                              expiryHeight,
                              [⟨toAddress, toString amount, memoHex⟩],
                              changeAddress, feeZat, notes⟩,
                             selected, amount⟩

/-- Modelled from the spec: `ExpiryHeightFromTip(tip, offset)` of
package `internal/logic` is exercised by the repository's unit tests
but its implementation is not among the provided sources.  Per the
spec (§4.8 step 6, §8 S6) and the v1.6.0 changelog:
`expiry_height = (tip + 1) + expiry_offset`, requiring
`expiry_offset ≥ 4` (else an expiring-soon invalid request) and
failing when the result wraps a u32. -/
def ExpiryHeightFromTip (tip offset : Nat) : Except String Nat :=
  if offset < 4 then .error "expiry offset must be >= 4"
  else if tip + 1 + offset > U32MAX then .error "expiry height overflow"
  else .ok (tip + 1 + offset)

/-! ### Specification-side selector cascade

The claimed strategy cascade, written from the specification's wording
(§4.3): five strategies tried in order, first success wins.  The first
two strategies are phrased through `List.find?` over the ascending
list; strategies 3–5 are the two-pointer scan, the binary-search best
fit and the greedy fallback named above, which the specification
prescribes algorithmically. -/

/-- Specified strategy 1: one note exactly equal to amount plus the
no-change fee. -/
def strategyOneExact (asc : List UnspentNote) (need fee : Nat) :
    Option (List UnspentNote × Nat) :=
  (asc.find? (fun n => n.valueZat == need)).map (fun n => ([n], fee))

/-- Specified strategy 2: one note at least amount plus the
with-change fee. -/
def strategyOneBestFit (asc : List UnspentNote) (need fee : Nat) :
    Option (List UnspentNote × Nat) :=
  (asc.find? (fun n => need ≤ n.valueZat)).map (fun n => ([n], fee))

/-- Specified strategy 3: a two-note exact match against the no-change
fee, found by the two-pointer scan over the ascending list. -/
def strategyTwoExact (asc : List UnspentNote) (need fee : Nat) :
    Except LogicErr (Option (List UnspentNote × Nat)) :=
  if asc.length ≥ 2 then
    match twoPointer asc need 0 (asc.length - 1) with
    | .error e => .error e
    | .ok none => .ok none
    | .ok (some (a, b)) => .ok (some ([a, b], fee))
  else .ok none

/-- Specified strategy 4: a two-note best fit by binary search,
retaining the minimum sum with ties broken by lower `i` then lower
`j`. -/
def strategyTwoBestFit (asc : List UnspentNote) (need fee : Nat) :
    Except LogicErr (Option (List UnspentNote × Nat)) :=
  if asc.length ≥ 2 then
    match bestFitLoop asc need 0 ⟨false, 0, 0, 0⟩ with
    | .error e => .error e
    | .ok st =>
      if st.found then
        .ok (some ([asc.getD st.bestI default, asc.getD st.bestJ default], fee))
      else .ok none
  else .ok none

/-- The specified cascade: strategies 1–5 in order, first success
wins; a fee/target overflow at any stage aborts. -/
def SelectCascadeSpec (notes : List UnspentNote) (amountZat outputCount : Nat)
    (p : FeePolicy) : Except LogicErr (List UnspentNote × Nat) :=
  if notes.length = 0 then .error .insufficientFunds
  else
    let asc := sortNotesAsc notes
    match neededTotal amountZat p 1 outputCount with
    | .error e => .error e
    | .ok (need1, fee1) =>
      match strategyOneExact asc need1 fee1 with
      | some r => .ok r
      | none =>
        match neededTotal amountZat p 1 (outputCount + 1) with
        | .error e => .error e
        | .ok (need2, fee2) =>
          match strategyOneBestFit asc need2 fee2 with
          | some r => .ok r
          | none =>
            match neededTotal amountZat p 2 outputCount with
            | .error e => .error e
            | .ok (need3, fee3) =>
              match strategyTwoExact asc need3 fee3 with
              | .error e => .error e
              | .ok (some r) => .ok r
              | .ok none =>
                match neededTotal amountZat p 2 (outputCount + 1) with
                | .error e => .error e
                | .ok (need4, fee4) =>
                  match strategyTwoBestFit asc need4 fee4 with
                  | .error e => .error e
                  | .ok (some r) => .ok r
                  | .ok none =>
                    greedyLoop amountZat p outputCount
                      (sortNotesDesc notes) [] 0

/-! ### Specification-side consolidation search -/

/-- The `(k, t)` examination order of the consolidation selector:
`k` from `kmax` down to 2, and within each `k`, `t` from `k` down to
0. -/
def consOrder (kmax : Nat) : List (Nat × Nat) :=
  ((List.range' 2 (kmax - 1)).reverse).flatMap
    (fun k => ((List.range (k + 1)).reverse).map (fun t => (k, t)))

/-- The policy-applied fee for `k` spends and one output, read as a
total function (`0` on overflow; the equivalence theorem assumes the
application succeeds). -/
def appliedFeeK (p : FeePolicy) (k : Nat) : Nat :=
  match p.Apply (RequiredFeeSend k 1) with
  | .ok v => v
  | .error _ => 0

/-- Whether partition `(k, t)` qualifies: the total of the `t`
smallest and `k - t` largest notes strictly exceeds the fee for `k`
spends and one output. -/
def consQualifies (asc : List UnspentNote) (p : FeePolicy)
    (kt : Nat × Nat) : Bool :=
  decide (takeSum asc kt.2 + lastSum asc (kt.1 - kt.2) > appliedFeeK p kt.1)

/-- The notes of partition `(k, t)`: the `t` smallest and the `k - t`
largest, in the canonical ascending order. -/
def consSelection (asc : List UnspentNote) (kt : Nat × Nat) :
    List UnspentNote :=
  asc.take kt.2 ++ asc.drop (asc.length - (kt.1 - kt.2))

/-! ### Frame effect of the canonical selector

Go slices alias mutable backing arrays, so an in-place
`sort.Slice(notes, …)` is visible to the caller.  The state-passing
reading below tracks the caller-visible contents of the `notes`
argument across the body of each selector: every statement that sorts
runs either on a fresh copy (`append([]UnspentNote(nil), notes...)`)
or on the argument itself, and the returned list is what the caller's
slice holds when the function returns. -/

/-- Caller-visible contents of `notes` after the canonical
`SelectNotesWithFeePolicy` (logic.go): both sorts run on fresh copies
(`notesAsc`, `notesDesc`); no statement writes through the argument,
which is therefore returned unchanged. -/
def selectCallerNotesAfter (notes : List UnspentNote)
    (_amountZat _outputCount : Nat) (_p : FeePolicy) : List UnspentNote :=
  let _notesAsc := sortNotesAsc notes
  let _notesDesc := sortNotesDesc notes
  notes

/-- Caller-visible contents of `notes` after the historical
`SelectNotesWithFeePolicy`: its first statement is
`sort.Slice(notes, …)` on the argument itself, so the caller's slice
holds the descending arrangement afterwards. -/
def legacyCallerNotesAfter (notes : List UnspentNote)
    (_amountZat _outputCount : Nat) (_p : FeePolicy) : List UnspentNote :=
  sortNotesDesc notes

/-! ## Lemmas about the arithmetic helpers -/

theorem addUint64_ok {a b c : Nat} (h : addUint64 a b = some c) :
    c = a + b ∧ a + b ≤ U64MAX := by
  unfold addUint64 at h
  split at h
  · simp only [Option.some.injEq] at h
    exact ⟨h.symm, by assumption⟩
  · exact absurd h (by simp)

theorem addUint64_of_le {a b : Nat} (h : a + b ≤ U64MAX) :
    addUint64 a b = some (a + b) := by
  unfold addUint64
  simp [h]

theorem addUint64_eq_none {a b : Nat} (h : addUint64 a b = none) :
    U64MAX < a + b := by
  unfold addUint64 at h
  split at h
  · exact absurd h (by simp)
  · omega

theorem mulUint64_ok_iff {a b c : Nat} :
    mulUint64 a b = some c ↔ (c = a * b ∧ a * b ≤ U64MAX) := by
  unfold mulUint64
  by_cases h0 : a = 0 ∨ b = 0
  · rw [if_pos h0]
    constructor
    · intro hc
      simp only [Option.some.injEq] at hc
      subst hc
      rcases h0 with h | h <;> subst h <;> simp [U64MAX]
    · rintro ⟨rfl, _⟩
      rcases h0 with h | h <;> subst h <;> simp
  · rw [if_neg h0]
    push_neg at h0
    have hb : 0 < b := Nat.pos_of_ne_zero h0.2
    have key : U64MAX / b < a ↔ U64MAX < a * b := Nat.div_lt_iff_lt_mul hb
    by_cases hgt : a > U64MAX / b
    · rw [if_pos hgt]
      constructor
      · intro h; exact absurd h (by simp)
      · rintro ⟨rfl, hle⟩
        have := key.mp hgt
        omega
    · rw [if_neg hgt]
      have hle : a * b ≤ U64MAX := by
        by_contra hc
        exact hgt (key.mpr (by omega))
      simp only [Option.some.injEq]
      constructor
      · intro h; exact ⟨h.symm, hle⟩
      · rintro ⟨rfl, _⟩; rfl

/-- `Apply` either succeeds or reports overflow. -/
theorem apply_cases (p : FeePolicy) (base : Nat) :
    (∃ v, p.Apply base = .ok v) ∨ p.Apply base = .error .overflow := by
  unfold FeePolicy.Apply
  rcases hmul : mulUint64 base (if p.multiplier = 0 then 1 else p.multiplier)
      with _ | w
  · right; simp only [hmul]
  · simp only [hmul]
    rcases hadd : addUint64 w p.addZat with _ | u
    · right; simp only [hadd]
    · left; exact ⟨u, by simp only [hadd]⟩

/-- Characterization of `FeePolicy.Apply`: it succeeds exactly when
`max(multiplier, 1) * base + add` fits a u64, and then returns that
value. -/
theorem apply_ok_iff {m a base v : Nat} :
    FeePolicy.Apply ⟨m, a⟩ base = .ok v ↔
      (v = max m 1 * base + a ∧ max m 1 * base + a ≤ U64MAX) := by
  unfold FeePolicy.Apply
  have hm : (if (⟨m, a⟩ : FeePolicy).multiplier = 0
      then 1 else (⟨m, a⟩ : FeePolicy).multiplier) = max m 1 := by
    show (if m = 0 then 1 else m) = max m 1
    rcases Nat.eq_zero_or_pos m with h | h
    · subst h; rfl
    · rw [if_neg (by omega)]; omega
  rw [hm]
  rcases hmul : mulUint64 base (max m 1) with _ | w
  · simp only [hmul]
    have hgt : U64MAX < base * max m 1 := by
      by_contra hc
      have hok : mulUint64 base (max m 1) = some (base * max m 1) :=
        mulUint64_ok_iff.mpr ⟨rfl, by omega⟩
      rw [hok] at hmul
      exact absurd hmul (by simp)
    constructor
    · intro h; exact absurd h (by simp)
    · rintro ⟨rfl, hle⟩
      rw [Nat.mul_comm] at hgt
      omega
  · obtain ⟨rfl, hw⟩ := mulUint64_ok_iff.mp hmul
    simp only [hmul]
    rcases hadd : addUint64 (base * max m 1) a with _ | u
    · simp only [hadd]
      have hgt := addUint64_eq_none hadd
      constructor
      · intro h; exact absurd h (by simp)
      · rintro ⟨rfl, hle⟩
        rw [Nat.mul_comm] at hgt
        omega
    · obtain ⟨rfl, hle⟩ := addUint64_ok hadd
      simp only [hadd, Except.ok.injEq]
      rw [Nat.mul_comm base (max m 1)] at hle ⊢
      constructor
      · intro h; exact ⟨h.symm, hle⟩
      · rintro ⟨rfl, _⟩; rfl

/-- `Apply` fails (and then only with the overflow error) exactly when
the checked value exceeds the u64 range. -/
theorem apply_error_iff {m a base : Nat} (e : LogicErr) :
    FeePolicy.Apply ⟨m, a⟩ base = .error e ↔
      (e = .overflow ∧ max m 1 * base + a > U64MAX) := by
  constructor
  · intro happ
    rcases apply_cases ⟨m, a⟩ base with ⟨v, hok⟩ | herr
    · rw [hok] at happ; exact absurd happ (by simp)
    · rw [herr] at happ
      simp only [Except.error.injEq] at happ
      subst happ
      refine ⟨rfl, ?_⟩
      by_contra hc
      have hok : FeePolicy.Apply ⟨m, a⟩ base = .ok (max m 1 * base + a) :=
        apply_ok_iff.mpr ⟨rfl, by omega⟩
      rw [hok] at herr
      exact absurd herr (by simp)
  · rintro ⟨rfl, hgt⟩
    rcases apply_cases ⟨m, a⟩ base with ⟨v, hok⟩ | herr
    · obtain ⟨rfl, hle⟩ := apply_ok_iff.mp hok
      omega
    · exact herr

/-- `RequiredFeeSend` in closed form. -/
theorem requiredFeeSend_eq (n o : Nat) :
    RequiredFeeSend n o = 5000 * max (max n o) 2 := by
  unfold RequiredFeeSend
  dsimp only
  split <;> split <;> omega

/-- `Apply` success transfers down to smaller bases. -/
theorem apply_ok_of_le {p : FeePolicy} {base base' v : Nat}
    (hb : base' ≤ base) (h : p.Apply base = .ok v) :
    ∃ v', p.Apply base' = .ok v' ∧ v' ≤ v := by
  obtain ⟨m, a⟩ := p
  obtain ⟨rfl, hle⟩ := apply_ok_iff.mp h
  refine ⟨max m 1 * base' + a, apply_ok_iff.mpr ⟨rfl, ?_⟩, ?_⟩
  · have : max m 1 * base' ≤ max m 1 * base := Nat.mul_le_mul_left _ hb
    omega
  · have : max m 1 * base' ≤ max m 1 * base := Nat.mul_le_mul_left _ hb
    omega

/-! ## Lemmas about sums and sorting -/

theorem sumVals_nil : sumVals [] = 0 := rfl

theorem sumVals_cons (n : UnspentNote) (l : List UnspentNote) :
    sumVals (n :: l) = n.valueZat + sumVals l := rfl

theorem sumVals_append (a b : List UnspentNote) :
    sumVals (a ++ b) = sumVals a + sumVals b := by
  induction a with
  | nil => simp [sumVals_nil, sumVals]
  | cons n rest ih =>
    simp only [List.cons_append, sumVals_cons, ih]
    omega

theorem sumValsChecked_ok_aux (l : List UnspentNote) :
    ∀ acc t, l.foldlM (fun a n => addUint64 a n.valueZat) acc = some t →
      t = acc + sumVals l ∧ t ≤ U64MAX ∨ (l = [] ∧ t = acc) := by
  induction l with
  | nil => intro acc t h; right; simp at h; exact ⟨rfl, h.symm⟩
  | cons n rest ih =>
    intro acc t h
    left
    simp only [List.foldlM_cons] at h
    rcases hadd : addUint64 acc n.valueZat with _ | acc'
    · rw [hadd] at h; exact absurd h (by simp)
    · rw [hadd] at h
      obtain ⟨rfl, hle⟩ := addUint64_ok hadd
      simp only [Option.bind_eq_bind, Option.some_bind] at h
      rcases ih _ _ h with ⟨rfl, hle'⟩ | ⟨hrest, rfl⟩
      · constructor
        · rw [sumVals_cons]; omega
        · exact hle'
      · subst hrest
        exact ⟨by rw [sumVals_cons, sumVals_nil]; omega, hle⟩

/-- A successful checked sum is the plain sum, and it fits a u64
whenever the list is non-empty (an empty list leaves the initial 0,
which also fits). -/
theorem sumValsChecked_ok {l : List UnspentNote} {t : Nat}
    (h : sumValsChecked l = some t) : t = sumVals l ∧ t ≤ U64MAX := by
  rcases sumValsChecked_ok_aux l 0 t h with ⟨ht, hle⟩ | ⟨hl, rfl⟩
  · exact ⟨by omega, hle⟩
  · subst hl
    exact ⟨rfl, by simp [U64MAX]⟩

theorem sumVals_insertByLt (lt : UnspentNote → UnspentNote → Bool)
    (a : UnspentNote) (l : List UnspentNote) :
    sumVals (insertByLt lt a l) = a.valueZat + sumVals l := by
  induction l with
  | nil => rfl
  | cons b bs ih =>
    unfold insertByLt
    split
    · simp only [sumVals_cons, ih]; omega
    · simp only [sumVals_cons]

theorem sumVals_sortByLt (lt : UnspentNote → UnspentNote → Bool)
    (l : List UnspentNote) : sumVals (sortByLt lt l) = sumVals l := by
  induction l with
  | nil => rfl
  | cons n rest ih =>
    unfold sortByLt at ih ⊢
    simp only [List.foldr_cons, sumVals_cons, sumVals_insertByLt, ih]

theorem sortByLt_perm (lt : UnspentNote → UnspentNote → Bool)
    (l : List UnspentNote) : (sortByLt lt l).Perm l := by
  induction l with
  | nil => exact List.Perm.refl _
  | cons n rest ih =>
    unfold sortByLt at ih ⊢
    simp only [List.foldr_cons]
    have hins : ∀ m : List UnspentNote, (insertByLt lt n m).Perm (n :: m) := by
      intro m
      induction m with
      | nil => exact List.Perm.refl _
      | cons b bs ihm =>
        unfold insertByLt
        split
        · exact ((ihm.cons b).trans (List.Perm.swap n b bs)).symm.symm
        · exact List.Perm.refl _
    exact (hins _).trans (ih.cons n)

theorem length_sortByLt (lt : UnspentNote → UnspentNote → Bool)
    (l : List UnspentNote) : (sortByLt lt l).length = l.length :=
  (sortByLt_perm lt l).length_eq

/-! ## Soundness of the selector cascade -/

theorem neededTotal_ok {amt s o need fee : Nat} {p : FeePolicy}
    (h : neededTotal amt p s o = .ok (need, fee)) :
    need = amt + fee ∧ p.Apply (RequiredFeeSend s o) = .ok fee := by
  unfold neededTotal at h
  rcases happ : p.Apply (RequiredFeeSend s o) with e | f
  · simp only [happ] at h
    exact absurd h (by simp)
  · simp only [happ] at h
    rcases hadd : addUint64 amt f with _ | nd
    · simp only [hadd] at h
      exact absurd h (by simp)
    · simp only [hadd, Except.ok.injEq, Prod.mk.injEq] at h
      obtain ⟨rfl, rfl⟩ := h
      obtain ⟨rfl, _⟩ := addUint64_ok hadd
      exact ⟨rfl, rfl⟩

theorem scanFirst_eq_find? (q : UnspentNote → Bool) (l : List UnspentNote) :
    scanFirst q l = l.find? q := by
  induction l with
  | nil => rfl
  | cons n rest ih =>
    unfold scanFirst
    rw [List.find?_cons]
    rcases hqn : q n
    · simp only [hqn, if_neg, Bool.false_eq_true, not_false_iff, ite_false]
      exact ih
    · simp only [hqn, ite_true]

theorem scanFirst_some {q : UnspentNote → Bool} {l : List UnspentNote}
    {n : UnspentNote} (h : scanFirst q l = some n) : q n = true := by
  induction l with
  | nil => exact absurd h (by simp [scanFirst])
  | cons m rest ih =>
    unfold scanFirst at h
    split at h
    · simp only [Option.some.injEq] at h; subst h; assumption
    · exact ih h

theorem twoPointerFuel_sum {asc : List UnspentNote} {need : Nat} :
    ∀ fuel i j {a b : UnspentNote},
      twoPointerFuel asc need fuel i j = .ok (some (a, b)) →
      a.valueZat + b.valueZat = need := by
  intro fuel
  induction fuel with
  | zero =>
    intro i j a b h
    exact absurd h (by simp [twoPointerFuel])
  | succ f ih =>
    intro i j a b h
    unfold twoPointerFuel at h
    split at h
    · rcases hadd : addUint64 (asc.getD i default).valueZat
          (asc.getD j default).valueZat with _ | sum
      · simp only [hadd] at h
        exact absurd h (by simp)
      · simp only [hadd] at h
        obtain ⟨rfl, _⟩ := addUint64_ok hadd
        by_cases heq : (asc.getD i default).valueZat +
            (asc.getD j default).valueZat = need
        · rw [if_pos heq] at h
          simp only [Except.ok.injEq, Option.some.injEq, Prod.mk.injEq] at h
          obtain ⟨rfl, rfl⟩ := h
          exact heq
        · rw [if_neg heq] at h
          by_cases hlt : (asc.getD i default).valueZat +
              (asc.getD j default).valueZat < need
          · rw [if_pos hlt] at h
            exact ih (i + 1) j h
          · rw [if_neg hlt] at h
            exact ih i (j - 1) h
    · exact absurd h (by simp)

theorem twoPointer_sum {asc : List UnspentNote} {need i j : Nat}
    {a b : UnspentNote}
    (h : twoPointer asc need i j = .ok (some (a, b))) :
    a.valueZat + b.valueZat = need :=
  twoPointerFuel_sum (j - i) i j h

theorem searchFirstGeFuel_spec (asc : List UnspentNote) (bNeed : Nat) :
    ∀ fuel start, searchFirstGeFuel asc bNeed fuel start < asc.length →
      (asc.getD (searchFirstGeFuel asc bNeed fuel start) default).valueZat ≥
        bNeed := by
  intro fuel
  induction fuel with
  | zero =>
    intro start hlt
    unfold searchFirstGeFuel at hlt
    omega
  | succ f ih =>
    intro start hlt
    unfold searchFirstGeFuel at hlt ⊢
    by_cases hs : start < asc.length
    · rw [if_pos hs] at hlt ⊢
      by_cases hge : (asc.getD start default).valueZat ≥ bNeed
      · rw [if_pos hge]
        exact hge
      · rw [if_neg hge] at hlt ⊢
        exact ih (start + 1) hlt
    · rw [if_neg hs] at hlt
      omega

theorem searchFirstGe_spec (asc : List UnspentNote) (bNeed start : Nat)
    (hlt : searchFirstGe asc start bNeed < asc.length) :
    (asc.getD (searchFirstGe asc start bNeed) default).valueZat ≥ bNeed :=
  searchFirstGeFuel_spec asc bNeed _ start hlt

/-- Invariant carried by the strategy-4 loop: once a pair is recorded,
its sum is the sum of the recorded indices' values and covers the
need. -/
def BestFitInv (asc : List UnspentNote) (need : Nat) (st : BestFitState) :
    Prop :=
  st.found = true →
    st.bestSum = (asc.getD st.bestI default).valueZat +
        (asc.getD st.bestJ default).valueZat ∧
      need ≤ st.bestSum

theorem bestFitLoopFuel_inv {asc : List UnspentNote} {need : Nat} :
    ∀ fuel i {st st' : BestFitState},
      bestFitLoopFuel asc need fuel i st = .ok st' →
      BestFitInv asc need st → BestFitInv asc need st' := by
  intro fuel
  induction fuel with
  | zero =>
    intro i st st' h hinv
    unfold bestFitLoopFuel at h
    simp only [Except.ok.injEq] at h
    subst h
    exact hinv
  | succ f ih =>
    intro i st st' h hinv
    unfold bestFitLoopFuel at h
    split at h
    · split at h
      · simp only [Except.ok.injEq] at h; subst h; exact hinv
      · rename_i hval
        dsimp only [] at h
        split at h
        · exact ih (i + 1) h hinv
        · rename_i hj
          rcases hadd : addUint64 (asc.getD i default).valueZat
              (asc.getD (searchFirstGe asc (i + 1)
                (need - (asc.getD i default).valueZat)) default).valueZat
              with _ | sum
          · simp only [hadd] at h
            exact absurd h (by simp)
          · simp only [hadd] at h
            obtain ⟨rfl, _⟩ := addUint64_ok hadd
            refine ih (i + 1) h ?_
            split
            · intro _
              push_neg at hj
              have hjlt := hj.2
              have hge := searchFirstGe_spec asc
                (need - (asc.getD i default).valueZat) (i + 1) hjlt
              have hlt2 : (asc.getD i default).valueZat < need := by omega
              refine ⟨rfl, ?_⟩
              show need ≤ (asc.getD i default).valueZat +
                (asc.getD (searchFirstGe asc (i + 1)
                  (need - (asc.getD i default).valueZat)) default).valueZat
              omega
            · exact hinv
    · simp only [Except.ok.injEq] at h; subst h; exact hinv

theorem bestFitLoop_inv {asc : List UnspentNote} {need i : Nat}
    {st st' : BestFitState} (h : bestFitLoop asc need i st = .ok st')
    (hinv : BestFitInv asc need st) : BestFitInv asc need st' :=
  bestFitLoopFuel_inv _ i h hinv

theorem greedyLoop_sound {amt k : Nat} {p : FeePolicy} :
    ∀ (rest selected : List UnspentNote) (total : Nat)
      {sel : List UnspentNote} {fee : Nat},
      total = sumVals selected →
      greedyLoop amt p k rest selected total = .ok (sel, fee) →
      amt + fee ≤ sumVals sel := by
  intro rest
  induction rest with
  | nil =>
    intro selected total sel fee htot h
    exact absurd h (by simp [greedyLoop])
  | cons n rs ih =>
    intro selected total sel fee htot h
    unfold greedyLoop at h
    dsimp only [] at h
    rcases hadd : addUint64 total n.valueZat with _ | total'
    · simp only [hadd] at h
      exact absurd h (by simp)
    · simp only [hadd] at h
      obtain ⟨rfl, _⟩ := addUint64_ok hadd
      have htot' : total + n.valueZat = sumVals (selected ++ [n]) := by
        rw [sumVals_append, sumVals_cons, sumVals_nil, htot]
        omega
      rcases hneed : neededTotal amt p (selected ++ [n]).length k
          with e | ⟨needNC, feeNC⟩
      · simp only [hneed] at h
        exact absurd h (by simp)
      · simp only [hneed] at h
        obtain ⟨hNC, _⟩ := neededTotal_ok hneed
        split at h
        · rename_i heq
          simp only [Except.ok.injEq, Prod.mk.injEq] at h
          obtain ⟨rfl, rfl⟩ := h
          omega
        · rcases hneed2 : neededTotal amt p (selected ++ [n]).length (k + 1)
              with e | ⟨needWC, feeWC⟩
          · simp only [hneed2] at h
            exact absurd h (by simp)
          · simp only [hneed2] at h
            obtain ⟨hWC, _⟩ := neededTotal_ok hneed2
            split at h
            · rename_i hge
              simp only [Except.ok.injEq, Prod.mk.injEq] at h
              obtain ⟨rfl, rfl⟩ := h
              omega
            · exact ih _ _ htot' h

/-- Soundness of the canonical selector: on success, the selected
notes cover the amount plus the returned fee. -/
theorem select_sound {notes : List UnspentNote} {amt k : Nat}
    {p : FeePolicy} {sel : List UnspentNote} {fee : Nat}
    (h : SelectNotesWithFeePolicy notes amt k p = .ok (sel, fee)) :
    amt + fee ≤ sumVals sel := by
  unfold SelectNotesWithFeePolicy at h
  split at h
  · exact absurd h (by simp)
  · dsimp only [] at h
    rcases h1 : neededTotal amt p 1 k with e | ⟨need1, fee1⟩
    · simp only [h1] at h
      exact absurd h (by simp)
    · simp only [h1] at h
      obtain ⟨hn1, _⟩ := neededTotal_ok h1
      rcases hs1 : scanFirst (fun n => n.valueZat == need1) (sortNotesAsc notes)
          with _ | n
      · simp only [hs1] at h
        rcases h2 : neededTotal amt p 1 (k + 1) with e | ⟨need2, fee2⟩
        · simp only [h2] at h
          exact absurd h (by simp)
        · simp only [h2] at h
          obtain ⟨hn2, _⟩ := neededTotal_ok h2
          rcases hs2 : scanFirst (fun n => n.valueZat ≥ need2)
              (sortNotesAsc notes) with _ | n
          · simp only [hs2] at h
            rcases h3 : neededTotal amt p 2 k with e | ⟨need3, fee3⟩
            · simp only [h3] at h
              exact absurd h (by simp)
            · simp only [h3] at h
              obtain ⟨hn3, _⟩ := neededTotal_ok h3
              rcases h3r : (if (sortNotesAsc notes).length ≥ 2 then
                  twoPointer (sortNotesAsc notes) need3 0
                    ((sortNotesAsc notes).length - 1)
                else .ok none) with e | r3
              · simp only [h3r] at h
                exact absurd h (by simp)
              · simp only [h3r] at h
                rcases r3 with _ | ⟨a, b⟩
                · rcases h4 : neededTotal amt p 2 (k + 1) with e | ⟨need4, fee4⟩
                  · simp only [h4] at h
                    exact absurd h (by simp)
                  · simp only [h4] at h
                    obtain ⟨hn4, _⟩ := neededTotal_ok h4
                    rcases h4r : (if (sortNotesAsc notes).length ≥ 2 then
                        bestFitLoop (sortNotesAsc notes) need4 0 ⟨false, 0, 0, 0⟩
                      else .ok ⟨false, 0, 0, 0⟩) with e | st
                    · simp only [h4r] at h
                      exact absurd h (by simp)
                    · simp only [h4r] at h
                      split at h
                      · rename_i hfound
                        simp only [Except.ok.injEq, Prod.mk.injEq] at h
                        obtain ⟨rfl, rfl⟩ := h
                        have hinv : BestFitInv (sortNotesAsc notes) need4 st := by
                          split at h4r
                          · exact bestFitLoop_inv h4r (by intro hc; simp at hc)
                          · simp only [Except.ok.injEq] at h4r
                            subst h4r
                            intro hc
                            simp at hc
                        obtain ⟨hsum, hge⟩ := hinv hfound
                        simp only [sumVals_cons, sumVals_nil]
                        omega
                      · exact greedyLoop_sound (sortNotesDesc notes) [] 0 rfl h
                · simp only [Except.ok.injEq, Prod.mk.injEq] at h
                  obtain ⟨rfl, rfl⟩ := h
                  have hsum : a.valueZat + b.valueZat = need3 := by
                    split at h3r
                    · exact twoPointer_sum h3r
                    · exact absurd h3r (by simp)
                  simp only [sumVals_cons, sumVals_nil]
                  omega
          · simp only [hs2] at h
            simp only [Except.ok.injEq, Prod.mk.injEq] at h
            obtain ⟨rfl, rfl⟩ := h
            have := scanFirst_some hs2
            simp only [decide_eq_true_eq, ge_iff_le] at this
            simp only [sumVals_cons, sumVals_nil]
            omega
      · simp only [hs1] at h
        simp only [Except.ok.injEq, Prod.mk.injEq] at h
        obtain ⟨rfl, rfl⟩ := h
        have := scanFirst_some hs1
        simp only [beq_iff_eq] at this
        simp only [sumVals_cons, sumVals_nil]
        omega

/-! ## Lemmas about dust suppression -/

theorem suppressDust_minChange_zero (tin tout fee : Nat) :
    SuppressDustChange tin tout fee 0 = .ok (fee, false) := rfl

theorem suppressDust_invalid {tin tout fee mc : Nat} (hmc : 0 < mc)
    (h : tin < tout ∨ (tout ≤ tin ∧ tin - tout < fee)) :
    SuppressDustChange tin tout fee mc = .error .invalidTotals := by
  unfold SuppressDustChange
  rw [if_neg (by omega)]
  rcases h with h | ⟨h1, h2⟩
  · rw [if_pos h]
  · rw [if_neg (by omega)]
    dsimp only
    rw [if_pos h2]

theorem suppressDust_pass {tin tout fee mc : Nat} (hmc : 0 < mc)
    (h1 : tout ≤ tin) (h2 : fee ≤ tin - tout)
    (h3 : tin - tout - fee = 0 ∨ mc ≤ tin - tout - fee) :
    SuppressDustChange tin tout fee mc = .ok (fee, false) := by
  unfold SuppressDustChange
  rw [if_neg (by omega), if_neg (by omega)]
  dsimp only
  rw [if_neg (by omega), if_pos (by omega)]

theorem suppressDust_suppress {tin tout fee mc : Nat} (hmc : 0 < mc)
    (h1 : tout ≤ tin) (h2 : fee ≤ tin - tout) (htin : tin ≤ U64MAX)
    (h3 : 0 < tin - tout - fee) (h4 : tin - tout - fee < mc) :
    SuppressDustChange tin tout fee mc =
      .ok (fee + (tin - tout - fee), true) := by
  unfold SuppressDustChange
  rw [if_neg (by omega), if_neg (by omega)]
  dsimp only
  rw [if_neg (by omega), if_neg (by omega)]
  rw [addUint64_of_le (by omega)]

/-- After a successful dust suppression started from a covering
selection, the outputs and fee still fit in the inputs, and with dust
suppression enabled the residual change is zero or at least the
threshold. -/
theorem suppressDust_sound {tin tout fee mc fee' : Nat} {b : Bool}
    (h : SuppressDustChange tin tout fee mc = .ok (fee', b))
    (hsel : tout + fee ≤ tin) :
    tout + fee' ≤ tin ∧
      (0 < mc → (tin - tout - fee' = 0 ∨ mc ≤ tin - tout - fee')) := by
  unfold SuppressDustChange at h
  split at h
  · rename_i hmc
    simp only [Except.ok.injEq, Prod.mk.injEq] at h
    obtain ⟨rfl, rfl⟩ := h
    exact ⟨hsel, by omega⟩
  · rename_i hmc
    split at h
    · exact absurd h (by simp)
    · rename_i hge
      dsimp only at h
      split at h
      · exact absurd h (by simp)
      · rename_i hfee
        split at h
        · rename_i hch
          simp only [Except.ok.injEq, Prod.mk.injEq] at h
          obtain ⟨rfl, rfl⟩ := h
          exact ⟨hsel, fun _ => by omega⟩
        · rename_i hch
          push_neg at hch
          rcases hadd : addUint64 fee (tin - tout - fee) with _ | nf
          · simp only [hadd] at h
            exact absurd h (by simp)
          · simp only [hadd, Except.ok.injEq, Prod.mk.injEq] at h
            obtain ⟨rfl, rfl⟩ := h
            obtain ⟨rfl, _⟩ := addUint64_ok hadd
            constructor
            · omega
            · intro _
              left
              omega

/-! ## Lemmas about output validation -/

/-- The checked sum of the parsed output amounts, starting from a given
accumulator. -/
def parsedSumFrom (acc : Nat) (os : List TxOutput) : Option Nat :=
  os.foldlM (fun a o =>
    match ParseUint64Decimal o.amountZat with
    | .error _ => none
    | .ok v => addUint64 a v) acc

/-- An output whose (trimmed) amount string fails to parse as a decimal
u64, or parses to zero. -/
def badAmount (o : TxOutput) : Prop :=
  match ParseUint64Decimal (goTrim o.amountZat) with
  | .error _ => True
  | .ok v => v = 0

theorem validateOutputs_total :
    ∀ (l : List TxOutput) (acc : Nat) {os : List TxOutput} {t : Nat},
      validateOutputs l acc = .ok (os, t) → parsedSumFrom acc os = some t := by
  intro l
  induction l with
  | nil =>
    intro acc os t h
    unfold validateOutputs at h
    simp only [Except.ok.injEq, Prod.mk.injEq] at h
    obtain ⟨rfl, rfl⟩ := h
    rfl
  | cons o rest ih =>
    intro acc os t h
    unfold validateOutputs at h
    dsimp only [] at h
    split at h
    · exact absurd h (by simp)
    · split at h
      · exact absurd h (by simp)
      · rcases hp : ParseUint64Decimal (goTrim o.amountZat) with e | amt
        · simp only [hp] at h
          exact absurd h (by simp)
        · simp only [hp] at h
          split at h
          · exact absurd h (by simp)
          · rcases hadd : addUint64 acc amt with _ | acc2
            · simp only [hadd] at h
              exact absurd h (by simp)
            · simp only [hadd] at h
              rcases hrec : validateOutputs rest acc2 with e | ⟨os', t'⟩
              · simp only [hrec] at h
                exact absurd h (by simp)
              · simp only [hrec, Except.ok.injEq, Prod.mk.injEq] at h
                obtain ⟨rfl, rfl⟩ := h
                have := ih acc2 hrec
                unfold parsedSumFrom at this ⊢
                simp only [List.foldlM_cons]
                have htrim :
                    ParseUint64Decimal
                      (⟨goTrim o.toAddress, goTrim o.amountZat, goTrim o.memoHex⟩ :
                        TxOutput).amountZat = .ok amt := hp
                rw [htrim]
                simp only [Option.bind_eq_bind, hadd, Option.some_bind]
                exact this

theorem validateOutputs_err :
    ∀ (l : List TxOutput) (acc : Nat),
      (∃ o ∈ l, badAmount o) →
      ∃ msg, validateOutputs l acc = .error (.coded .invalidRequest msg) := by
  intro l
  induction l with
  | nil =>
    intro acc h
    obtain ⟨o, ho, _⟩ := h
    exact absurd ho (by simp)
  | cons o rest ih =>
    intro acc hbad
    unfold validateOutputs
    dsimp only []
    split
    · exact ⟨_, rfl⟩
    · split
      · exact ⟨_, rfl⟩
      · rcases hp : ParseUint64Decimal (goTrim o.amountZat) with e | amt
        · simp only [hp]
          exact ⟨_, rfl⟩
        · simp only [hp]
          split
          · exact ⟨_, rfl⟩
          · rename_i hne
            have hbadrest : ∃ o' ∈ rest, badAmount o' := by
              rcases hbad with ⟨o', ho', hb⟩
              rcases List.mem_cons.mp ho' with rfl | hmem
              · unfold badAmount at hb
                rw [hp] at hb
                exact absurd hb hne
              · exact ⟨o', hmem, hb⟩
            rcases hadd : addUint64 acc amt with _ | acc2
            · simp only [hadd]
              exact ⟨_, rfl⟩
            · simp only [hadd]
              obtain ⟨msg, hmsg⟩ := ih acc2 hbadrest
              rw [hmsg]
              exact ⟨msg, rfl⟩

/-! ## Lemmas about the consolidation selector -/

theorem sumVals_drop_le (l : List UnspentNote) :
    ∀ n, sumVals (l.drop n) ≤ sumVals l := by
  induction l with
  | nil => intro n; simp [sumVals_nil]
  | cons a as ih =>
    intro n
    cases n with
    | zero => exact Nat.le_refl _
    | succ m =>
      simp only [List.drop_succ_cons]
      calc sumVals (as.drop m) ≤ sumVals as := ih m
        _ ≤ sumVals (a :: as) := by rw [sumVals_cons]; omega

theorem takeSum_add_lastSum_le {l : List UnspentNote} {t m : Nat}
    (h : t + m ≤ l.length) :
    takeSum l t + lastSum l m ≤ sumVals l := by
  unfold takeSum lastSum
  have hsplit : sumVals l = sumVals (l.take t) + sumVals (l.drop t) := by
    conv_lhs => rw [← List.take_append_drop t l]
    rw [sumVals_append]
  have hdd : l.drop (l.length - m) = (l.drop t).drop (l.length - m - t) := by
    rw [List.drop_drop]
    congr 1
    omega
  rw [hsplit, hdd]
  have := sumVals_drop_le (l.drop t) (l.length - m - t)
  omega

theorem consTLoop_sound {asc : List UnspentNote} {feeZat k : Nat} :
    ∀ t {t' : Nat}, consTLoop asc feeZat k t = .ok (some t') →
      t' ≤ t ∧ takeSum asc t' + lastSum asc (k - t') > feeZat := by
  intro t
  induction t with
  | zero =>
    intro t' h
    rw [consTLoop] at h
    rcases hadd : addUint64 (takeSum asc 0) (lastSum asc (k - 0)) with _ | tot
    · simp only [hadd] at h
      exact absurd h (by simp)
    · simp only [hadd] at h
      obtain ⟨rfl, _⟩ := addUint64_ok hadd
      split at h
      · rename_i hgt
        simp only [Except.ok.injEq, Option.some.injEq] at h
        subst h
        exact ⟨Nat.le_refl _, hgt⟩
      · exact absurd h (by simp)
  | succ s ih =>
    intro t' h
    rw [consTLoop] at h
    rcases hadd : addUint64 (takeSum asc (s + 1)) (lastSum asc (k - (s + 1)))
        with _ | tot
    · simp only [hadd] at h
      exact absurd h (by simp)
    · simp only [hadd] at h
      obtain ⟨rfl, _⟩ := addUint64_ok hadd
      split at h
      · rename_i hgt
        simp only [Except.ok.injEq, Option.some.injEq] at h
        subst h
        exact ⟨Nat.le_refl _, hgt⟩
      · obtain ⟨hle, hgt⟩ := ih h
        exact ⟨by omega, hgt⟩

theorem consKLoop_fee_lt {asc : List UnspentNote} {p : FeePolicy} :
    ∀ k {sel : List UnspentNote} {fee : Nat},
      consKLoop asc p k = .ok (sel, fee) → fee < sumVals sel := by
  intro k
  induction k with
  | zero =>
    intro sel fee h
    exact absurd h (by simp [consKLoop])
  | succ s ih =>
    intro sel fee h
    cases s with
    | zero => exact absurd h (by simp [consKLoop])
    | succ u =>
      rw [show u + 1 + 1 = u + 2 from rfl, consKLoop] at h
      rcases happ : p.Apply (RequiredFeeSend (u + 2) 1) with e | feeZat
      · simp only [happ] at h
        exact absurd h (by simp)
      · simp only [happ] at h
        rcases htl : consTLoop asc feeZat (u + 2) (u + 2) with e | r
        · simp only [htl] at h
          exact absurd h (by simp)
        · simp only [htl] at h
          rcases r with _ | bestT
          · simp only [] at h
            exact ih h
          · simp only [Except.ok.injEq, Prod.mk.injEq] at h
            obtain ⟨rfl, rfl⟩ := h
            obtain ⟨hle, hgt⟩ := consTLoop_sound (u + 2) htl
            rw [sumVals_append]
            by_cases hpos : u + 2 - bestT > 0
            · rw [if_pos hpos]
              unfold takeSum lastSum at hgt
              omega
            · rw [if_neg hpos]
              have hk0 : u + 2 - bestT = 0 := by omega
              rw [hk0] at hgt
              unfold takeSum lastSum at hgt
              simp only [Nat.sub_zero, List.drop_length, sumVals_nil] at hgt
              simp only [sumVals_nil]
              omega

theorem requiredFeeSend_mono {a b : Nat} (h : a ≤ b) :
    RequiredFeeSend a 1 ≤ RequiredFeeSend b 1 := by
  rw [requiredFeeSend_eq, requiredFeeSend_eq]
  omega

theorem sumValsChecked_of_le_aux (l : List UnspentNote) :
    ∀ acc, acc + sumVals l ≤ U64MAX →
      l.foldlM (fun a n => addUint64 a n.valueZat) acc =
        some (acc + sumVals l) := by
  induction l with
  | nil => intro acc _; simp [sumVals_nil]
  | cons n rest ih =>
    intro acc hle
    rw [sumVals_cons] at hle
    simp only [List.foldlM_cons]
    rw [addUint64_of_le (by omega)]
    simp only [Option.bind_eq_bind, Option.some_bind]
    rw [ih (acc + n.valueZat) (by omega)]
    congr 1
    rw [sumVals_cons]
    omega

theorem sumValsChecked_of_le {l : List UnspentNote}
    (h : sumVals l ≤ U64MAX) : sumValsChecked l = some (sumVals l) := by
  unfold sumValsChecked
  have := sumValsChecked_of_le_aux l 0 (by omega)
  simpa using this

theorem consTLoop_eq_find {asc : List UnspentNote} {p : FeePolicy}
    {feeZat k : Nat} (hsum : sumVals asc ≤ U64MAX) (hck : k ≤ asc.length)
    (hfk : appliedFeeK p k = feeZat) :
    ∀ t, t ≤ k →
      consTLoop asc feeZat k t =
        .ok (((List.range (t + 1)).reverse).find?
          (fun t' => consQualifies asc p (k, t'))) := by
  have hq_eq : ∀ t', consQualifies asc p (k, t') =
      decide (takeSum asc t' + lastSum asc (k - t') > feeZat) := by
    intro t'
    unfold consQualifies
    rw [hfk]
  intro t
  induction t with
  | zero =>
    intro _
    rw [consTLoop]
    have hle : takeSum asc 0 + lastSum asc (k - 0) ≤ U64MAX :=
      le_trans (takeSum_add_lastSum_le (by omega)) hsum
    simp only [addUint64_of_le hle]
    have hrange : (List.range (0 + 1)).reverse = [0] := by decide
    rw [hrange]
    by_cases hq : takeSum asc 0 + lastSum asc (k - 0) > feeZat
    · rw [if_pos hq, List.find?_cons_of_pos _ (by rw [hq_eq]; exact decide_eq_true hq)]
    · rw [if_neg hq,
        List.find?_cons_of_neg _ (by rw [hq_eq]; simpa using hq)]
      rfl
  | succ s ih =>
    intro ht
    rw [consTLoop]
    have hle : takeSum asc (s + 1) + lastSum asc (k - (s + 1)) ≤ U64MAX := by
      refine le_trans (takeSum_add_lastSum_le ?_) hsum
      omega
    simp only [addUint64_of_le hle]
    have hrange : (List.range (s + 1 + 1)).reverse =
        (s + 1) :: (List.range (s + 1)).reverse := by
      rw [List.range_succ, List.reverse_append]
      rfl
    rw [hrange]
    by_cases hq : takeSum asc (s + 1) + lastSum asc (k - (s + 1)) > feeZat
    · rw [if_pos hq,
        List.find?_cons_of_pos _ (by rw [hq_eq]; exact decide_eq_true hq)]
    · rw [if_neg hq,
        List.find?_cons_of_neg _ (by rw [hq_eq]; simpa using hq)]
      exact ih (by omega)

theorem consOrder_succ {k : Nat} (hk : 2 ≤ k) :
    consOrder k =
      ((List.range (k + 1)).reverse.map (fun t => (k, t))) ++
        consOrder (k - 1) := by
  unfold consOrder
  have h1 : k - 1 = (k - 2) + 1 := by omega
  have h2 : List.range' 2 (k - 1) = List.range' 2 (k - 2) ++ [k] := by
    rw [h1, List.range'_concat]
    congr 2
    omega
  rw [h2, List.reverse_append]
  simp only [List.reverse_cons, List.reverse_nil, List.nil_append,
    List.cons_append, List.nil_append, List.flatMap_cons]
  have h3 : (k - 1) - 1 = k - 2 := by omega
  rw [h3]

theorem consKLoop_eq {asc : List UnspentNote} {p : FeePolicy}
    (hsum : sumVals asc ≤ U64MAX) :
    ∀ k, k ≤ asc.length →
      (∃ v, p.Apply (RequiredFeeSend k 1) = .ok v) →
      consKLoop asc p k =
        (match (consOrder k).find? (consQualifies asc p) with
         | some kt => .ok (consSelection asc kt, appliedFeeK p kt.1)
         | none => .error (.coded .insufficientBalance "insufficient funds")) := by
  intro k
  induction k with
  | zero =>
    intro _ _
    rw [consKLoop]
    rfl
  | succ s ih =>
    intro hlen happ
    cases s with
    | zero =>
      rw [consKLoop]
      rfl
    | succ u =>
      rw [show u + 1 + 1 = u + 2 from rfl] at hlen happ ⊢
      rw [consKLoop]
      obtain ⟨feeZat, hfee⟩ := happ
      simp only [hfee]
      have hfk : appliedFeeK p (u + 2) = feeZat := by
        unfold appliedFeeK
        rw [hfee]
      rw [consTLoop_eq_find hsum hlen hfk (u + 2) (Nat.le_refl _),
        consOrder_succ (by omega), List.find?_append, List.find?_map]
      rcases hfind : (List.range (u + 2 + 1)).reverse.find?
          ((consQualifies asc p) ∘ (fun t => (u + 2, t))) with _ | t'
      · have hfind' : (List.range (u + 2 + 1)).reverse.find?
            (fun t' => consQualifies asc p (u + 2, t')) = none := hfind
        simp only [hfind', hfind, Option.map_none, Option.none_or]
        have hrec : u + 2 - 1 = u + 1 := rfl
        rw [hrec]
        refine ih (by omega) ?_
        obtain ⟨v', hv', _⟩ :=
          apply_ok_of_le (requiredFeeSend_mono (by omega : u + 1 ≤ u + 2)) hfee
        exact ⟨v', hv'⟩
      · have hfind' : (List.range (u + 2 + 1)).reverse.find?
            (fun t' => consQualifies asc p (u + 2, t')) = some t' := hfind
        have hor : (Option.map (fun t => (u + 2, t)) (some t')).or
            ((consOrder (u + 2 - 1)).find? (consQualifies asc p)) =
            some (u + 2, t') := rfl
        simp only [hfind', hfind, hor]
        unfold consSelection
        rw [hfk]
        by_cases hpos : u + 2 - t' > 0
        · rw [if_pos hpos]
        · rw [if_neg hpos]
          have h0 : u + 2 - t' = 0 := by omega
          rw [h0]
          simp only [Nat.sub_zero, List.drop_length, List.append_nil]

/-- The effective spend cap of the consolidation selector:
non-positive values default to 50, then the cap is limited to the note
count. -/
def consKmaxEff (len : Nat) (maxSpends : Int) : Int :=
  if (if maxSpends ≤ 0 then 50 else maxSpends) > (len : Int) then (len : Int)
  else (if maxSpends ≤ 0 then 50 else maxSpends)

theorem selectNotesForConsolidation_eq (notes : List UnspentNote)
    (maxSpends : Int) (p : FeePolicy)
    (hsum : sumVals notes ≤ U64MAX)
    (happ : ∃ v, p.Apply
      (RequiredFeeSend (consKmaxEff notes.length maxSpends).toNat 1) = .ok v) :
    selectNotesForConsolidation notes maxSpends p =
      (if consKmaxEff notes.length maxSpends < 2 then
        .error (.coded .invalidRequest "max_spends must be >= 2")
      else
        match (consOrder (consKmaxEff notes.length maxSpends).toNat).find?
            (consQualifies (sortNotesAsc notes) p) with
        | some kt => .ok (consSelection (sortNotesAsc notes) kt,
            appliedFeeK p kt.1)
        | none =>
          .error (.coded .insufficientBalance "insufficient funds")) := by
  unfold selectNotesForConsolidation
  dsimp only []
  have hkm : (if (if maxSpends ≤ 0 then 50 else maxSpends) > (notes.length : Int)
      then (notes.length : Int) else (if maxSpends ≤ 0 then 50 else maxSpends)) =
      consKmaxEff notes.length maxSpends := rfl
  rw [hkm]
  by_cases hlt : consKmaxEff notes.length maxSpends < 2
  · rw [if_pos hlt, if_pos hlt]
  · rw [if_neg hlt, if_neg hlt]
    have hsum' : sumVals (sortNotesAsc notes) ≤ U64MAX := by
      unfold sortNotesAsc
      rw [sumVals_sortByLt]
      exact hsum
    simp only [sumValsChecked_of_le hsum']
    have hcap : consKmaxEff notes.length maxSpends ≤ (notes.length : Int) := by
      unfold consKmaxEff
      split <;> split <;> omega
    have hlen : (consKmaxEff notes.length maxSpends).toNat ≤
        (sortNotesAsc notes).length := by
      unfold sortNotesAsc
      rw [length_sortByLt]
      omega
    exact consKLoop_eq hsum' _ hlen happ

theorem selectNotesForConsolidation_fee_lt {notes : List UnspentNote}
    {maxSpends : Int} {p : FeePolicy} {sel : List UnspentNote} {fee : Nat}
    (h : selectNotesForConsolidation notes maxSpends p = .ok (sel, fee)) :
    fee < sumVals sel := by
  unfold selectNotesForConsolidation at h
  dsimp only [] at h
  set km := (if (if maxSpends ≤ 0 then 50 else maxSpends) > ((notes.length : Int))
    then ((notes.length : Int)) else (if maxSpends ≤ 0 then 50 else maxSpends))
    with hkm
  split at h
  · exact absurd h (by simp)
  · rcases hs : sumValsChecked (sortNotesAsc notes) with _ | tot
    · simp only [hs] at h
      exact absurd h (by simp)
    · simp only [hs] at h
      exact consKLoop_fee_lt _ h

/-! ## Inversion of the plan builders -/

theorem planModel_sound {cfg : PlanConfig} {env : PlanEnv}
    {out : PlanOutcome} (h : PlanModel cfg env = .ok out) :
    parsedSumFrom 0 out.plan.outputs = some out.totalOutZat ∧
    out.totalOutZat + out.plan.feeZat ≤ sumVals out.selected ∧
    (0 < cfg.minChangeZat →
      (sumVals out.selected - out.totalOutZat - out.plan.feeZat = 0 ∨
        cfg.minChangeZat ≤
          sumVals out.selected - out.totalOutZat - out.plan.feeZat)) := by
  unfold PlanModel at h
  dsimp only [] at h
  split at h
  · exact absurd h (by simp)
  split at h
  · exact absurd h (by simp)
  split at h
  · exact absurd h (by simp)
  split at h
  · exact absurd h (by simp)
  split at h
  · exact absurd h (by simp)
  rcases hv : validateOutputs cfg.outputs 0 with e | ⟨outputs, totalOut⟩
  · simp only [hv] at h
    exact absurd h (by simp)
  simp only [hv] at h
  rcases hct : resolveCoinType cfg.coinType env.chainInfo.chain with e | coinType
  · simp only [hct] at h
    exact absurd h (by simp)
  simp only [hct] at h
  rcases hah : anchorHeightOf env.chainInfo.height with e | anchorHeight
  · simp only [hah] at h
    exact absurd h (by simp)
  simp only [hah] at h
  split at h
  · exact absurd h (by simp)
  split at h
  · exact absurd h (by simp)
  rcases hsel : SelectNotesWithFeePolicy env.notes totalOut
      cfg.outputs.length ⟨if cfg.feeMultiplier = 0 then 1 else cfg.feeMultiplier,
        cfg.feeAddZat⟩ with e | ⟨selected, fee0⟩
  · simp only [hsel] at h
    exact absurd h (by simp)
  simp only [hsel] at h
  rcases hsum : sumValsChecked selected with _ | totalIn
  · simp only [hsum] at h
    exact absurd h (by simp)
  simp only [hsum] at h
  rcases hsd : SuppressDustChange totalIn totalOut fee0 cfg.minChangeZat
      with e | ⟨fee, b⟩
  · simp only [hsd] at h
    exact absurd h (by simp)
  simp only [hsd] at h
  rcases hbn : buildPlanNotes env.byOutpoint selected with e | ⟨planNotes, positions⟩
  · simp only [hbn] at h
    exact absurd h (by simp)
  simp only [hbn] at h
  split at h
  · exact absurd h (by simp)
  rcases hap : attachPaths planNotes env.witnessResult.paths with e | notesAttached
  · simp only [hap] at h
    exact absurd h (by simp)
  simp only [hap] at h
  rcases hex : planExpiryHeight anchorHeight
      (if cfg.expiryOffset = 0 then 40 else cfg.expiryOffset) with e | expiryHeight
  · simp only [hex] at h
    exact absurd h (by simp)
  simp only [hex, Except.ok.injEq] at h
  subst h
  dsimp only
  obtain ⟨rfl, hInMax⟩ := sumValsChecked_ok hsum
  have hcov := select_sound hsel
  obtain ⟨hfit, hdust⟩ := suppressDust_sound hsd hcov
  refine ⟨validateOutputs_total cfg.outputs 0 hv, hfit, hdust⟩

theorem sweepModel_sound {cfg : SweepConfig} {env : PlanEnv}
    {out : PlanOutcome} (h : PlanSweepModel cfg env = .ok out) :
    sumVals out.selected = out.totalOutZat + out.plan.feeZat := by
  unfold PlanSweepModel at h
  dsimp only [] at h
  split at h
  · exact absurd h (by simp)
  split at h
  · exact absurd h (by simp)
  split at h
  · exact absurd h (by simp)
  rcases hct : resolveCoinType cfg.coinType env.chainInfo.chain with e | coinType
  · simp only [hct] at h
    exact absurd h (by simp)
  simp only [hct] at h
  rcases hah : anchorHeightOf env.chainInfo.height with e | anchorHeight
  · simp only [hah] at h
    exact absurd h (by simp)
  simp only [hah] at h
  split at h
  · exact absurd h (by simp)
  split at h
  · exact absurd h (by simp)
  rcases hsum : sumValsChecked env.notes with _ | totalIn
  · simp only [hsum] at h
    exact absurd h (by simp)
  simp only [hsum] at h
  rcases happ : FeePolicy.Apply
      ⟨if cfg.feeMultiplier = 0 then 1 else cfg.feeMultiplier, cfg.feeAddZat⟩
      (RequiredFeeSend env.notes.length 1) with e | feeZat
  · simp only [happ] at h
    exact absurd h (by simp)
  simp only [happ] at h
  split at h
  · exact absurd h (by simp)
  rename_i hgt
  rcases hbn : buildPlanNotes env.byOutpoint env.notes with e | ⟨planNotes, positions⟩
  · simp only [hbn] at h
    exact absurd h (by simp)
  simp only [hbn] at h
  split at h
  · exact absurd h (by simp)
  rcases hap : attachPaths planNotes env.witnessResult.paths with e | notesAttached
  · simp only [hap] at h
    exact absurd h (by simp)
  simp only [hap] at h
  rcases hex : planExpiryHeight anchorHeight
      (if cfg.expiryOffset = 0 then 40 else cfg.expiryOffset) with e | expiryHeight
  · simp only [hex] at h
    exact absurd h (by simp)
  simp only [hex, Except.ok.injEq] at h
  subst h
  dsimp only
  obtain ⟨rfl, _⟩ := sumValsChecked_ok hsum
  omega

theorem consolidateModel_sound {cfg : ConsolidateConfig} {env : PlanEnv}
    {out : PlanOutcome} (h : PlanConsolidateModel cfg env = .ok out) :
    sumVals out.selected = out.totalOutZat + out.plan.feeZat := by
  unfold PlanConsolidateModel at h
  dsimp only [] at h
  split at h
  · exact absurd h (by simp)
  split at h
  · exact absurd h (by simp)
  split at h
  · exact absurd h (by simp)
  rcases hct : resolveCoinType cfg.coinType env.chainInfo.chain with e | coinType
  · simp only [hct] at h
    exact absurd h (by simp)
  simp only [hct] at h
  rcases hah : anchorHeightOf env.chainInfo.height with e | anchorHeight
  · simp only [hah] at h
    exact absurd h (by simp)
  simp only [hah] at h
  split at h
  · exact absurd h (by simp)
  split at h
  · exact absurd h (by simp)
  rcases hsel : selectNotesForConsolidation env.notes
      (if cfg.maxSpends ≤ 0 then 50 else cfg.maxSpends)
      ⟨if cfg.feeMultiplier = 0 then 1 else cfg.feeMultiplier, cfg.feeAddZat⟩
      with e | ⟨selected, feeZat⟩
  · simp only [hsel] at h
    exact absurd h (by simp)
  simp only [hsel] at h
  rcases hsum : sumValsChecked selected with _ | totalIn
  · simp only [hsum] at h
    exact absurd h (by simp)
  simp only [hsum] at h
  split at h
  · exact absurd h (by simp)
  rcases hbn : buildPlanNotes env.byOutpoint selected with e | ⟨planNotes, positions⟩
  · simp only [hbn] at h
    exact absurd h (by simp)
  simp only [hbn] at h
  split at h
  · exact absurd h (by simp)
  rcases hap : attachPaths planNotes env.witnessResult.paths with e | notesAttached
  · simp only [hap] at h
    exact absurd h (by simp)
  simp only [hap] at h
  rcases hex : planExpiryHeight anchorHeight
      (if cfg.expiryOffset = 0 then 40 else cfg.expiryOffset) with e | expiryHeight
  · simp only [hex] at h
    exact absurd h (by simp)
  simp only [hex, Except.ok.injEq] at h
  subst h
  dsimp only
  obtain ⟨rfl, _⟩ := sumValsChecked_ok hsum
  omega

/-! ## The transcription agrees with the specified cascade -/

theorem select_eq_cascade (notes : List UnspentNote)
    (amountZat outputCount : Nat) (p : FeePolicy) :
    SelectNotesWithFeePolicy notes amountZat outputCount p =
      SelectCascadeSpec notes amountZat outputCount p := by
  unfold SelectNotesWithFeePolicy SelectCascadeSpec
  split
  · rfl
  · dsimp only []
    rcases h1 : neededTotal amountZat p 1 outputCount with e | ⟨need1, fee1⟩
    · simp only [h1]
    · simp only [h1]
      unfold strategyOneExact
      rw [← scanFirst_eq_find?]
      rcases hs1 : scanFirst (fun n => n.valueZat == need1) (sortNotesAsc notes)
          with _ | n1
      · simp only [Option.map_none']
        rcases h2 : neededTotal amountZat p 1 (outputCount + 1)
            with e | ⟨need2, fee2⟩
        · simp only [h2]
        · simp only [h2]
          unfold strategyOneBestFit
          rw [← scanFirst_eq_find?]
          rcases hs2 : scanFirst (fun n => n.valueZat ≥ need2)
              (sortNotesAsc notes) with _ | n2
          · simp only [Option.map_none']
            rcases h3 : neededTotal amountZat p 2 outputCount
                with e | ⟨need3, fee3⟩
            · simp only [h3]
            · simp only [h3]
              unfold strategyTwoExact
              by_cases hlen : (sortNotesAsc notes).length ≥ 2
              · simp only [if_pos hlen]
                rcases htw : twoPointer (sortNotesAsc notes) need3 0
                    ((sortNotesAsc notes).length - 1) with e | r
                · try simp only [htw]
                · try simp only [htw]
                  rcases r with _ | ⟨a, b⟩
                  · rcases h4 : neededTotal amountZat p 2 (outputCount + 1)
                        with e | ⟨need4, fee4⟩
                    · simp only [h4]
                    · simp only [h4]
                      unfold strategyTwoBestFit
                      simp only [if_pos hlen]
                      rcases hbf : bestFitLoop (sortNotesAsc notes) need4 0
                          ⟨false, 0, 0, 0⟩ with e | st
                      · simp only [hbf]
                      · simp only [hbf]
                        by_cases hfound : st.found = true
                        · rw [if_pos hfound, if_pos hfound]
                        · rw [if_neg hfound, if_neg hfound]
                          try rfl
                  · rfl
              · simp only [if_neg hlen]
                rcases h4 : neededTotal amountZat p 2 (outputCount + 1)
                    with e | ⟨need4, fee4⟩
                · simp only [h4]
                · simp only [h4]
                  unfold strategyTwoBestFit
                  simp only [if_neg hlen]
                  rfl
          · simp only [Option.map_some']
      · simp only [Option.map_some']

/-! ## Validation failures precede every collaborator interaction -/

/-- When some output's amount is malformed or zero, `Plan` fails with
an `invalid_request` error that does not depend on the environment: the
validation loop runs before the node is contacted. -/
theorem planModel_bad_output {cfg : PlanConfig}
    (hbad : ∃ o ∈ cfg.outputs, badAmount o) :
    ∃ msg, ∀ env : PlanEnv,
      PlanModel cfg env = .error (.coded .invalidRequest msg) := by
  by_cases h1 : goIsEmpty (goTrim cfg.rpcURL) = true
  · refine ⟨"rpc url required", fun env => ?_⟩
    unfold PlanModel
    dsimp only []
    rw [if_pos h1]
  · by_cases h2 : goIsEmpty (goTrim cfg.walletID) = true
    · refine ⟨"wallet_id required", fun env => ?_⟩
      unfold PlanModel
      dsimp only []
      rw [if_neg h1, if_pos h2]
    · by_cases h3 : kindSupported cfg.kind = true
      · by_cases h4 : cfg.outputs.isEmpty = true
        · obtain ⟨o, ho, _⟩ := hbad
          rw [List.isEmpty_iff] at h4
          rw [h4] at ho
          exact absurd ho (by simp)
        · by_cases h5 : goIsEmpty (goTrim cfg.changeAddress) = true
          · refine ⟨"change_address required", fun env => ?_⟩
            unfold PlanModel
            dsimp only []
            rw [if_neg h1, if_neg h2, if_neg (by simp [h3]), if_neg h4, if_pos h5]
          · obtain ⟨msg, hmsg⟩ := validateOutputs_err cfg.outputs 0 hbad
            refine ⟨msg, fun env => ?_⟩
            unfold PlanModel
            dsimp only []
            rw [if_neg h1, if_neg h2, if_neg (by simp [h3]), if_neg h4,
              if_neg h5]
            simp only [hmsg]
      · refine ⟨"unsupported kind", fun env => ?_⟩
        unfold PlanModel
        dsimp only []
        rw [if_neg h1, if_neg h2, if_pos (by simp [h3])]

/-- A consolidation request that reaches the candidate check with
fewer than two spendable notes fails as an invalid request. -/
theorem consolidateModel_too_few {cfg : ConsolidateConfig} {env : PlanEnv}
    (h1 : goIsEmpty (goTrim cfg.rpcURL) = false)
    (h2 : goIsEmpty (goTrim cfg.walletID) = false)
    (h3 : goIsEmpty (goTrim cfg.toAddress) = false)
    (hct : ∃ ct, resolveCoinType cfg.coinType env.chainInfo.chain = .ok ct)
    (hah : ∃ ah, anchorHeightOf env.chainInfo.height = .ok ah)
    (hcmx : ¬ env.cmxCount = 0)
    (hlen : env.notes.length < 2) :
    PlanConsolidateModel cfg env =
      .error (.coded .invalidRequest
        "not enough spendable notes to consolidate") := by
  unfold PlanConsolidateModel
  dsimp only []
  rw [if_neg (by simp [h1]), if_neg (by simp [h2]), if_neg (by simp [h3])]
  obtain ⟨ct, hct⟩ := hct
  simp only [hct]
  obtain ⟨ah, hah⟩ := hah
  simp only [hah]
  rw [if_neg hcmx, if_pos hlen]

/-- The applied fee is monotone in the multiplier. -/
theorem apply_mono_mult {m1 m2 a base v1 v2 : Nat} (hm : m1 ≤ m2)
    (h1 : FeePolicy.Apply ⟨m1, a⟩ base = .ok v1)
    (h2 : FeePolicy.Apply ⟨m2, a⟩ base = .ok v2) : v1 ≤ v2 := by
  obtain ⟨rfl, _⟩ := apply_ok_iff.mp h1
  obtain ⟨rfl, _⟩ := apply_ok_iff.mp h2
  have : max m1 1 * base ≤ max m2 1 * base :=
    Nat.mul_le_mul_right _ (by omega)
  omega

/-- The applied fee is monotone in the additive adjustment. -/
theorem apply_mono_add {m a1 a2 base v1 v2 : Nat} (ha : a1 ≤ a2)
    (h1 : FeePolicy.Apply ⟨m, a1⟩ base = .ok v1)
    (h2 : FeePolicy.Apply ⟨m, a2⟩ base = .ok v2) : v1 ≤ v2 := by
  obtain ⟨rfl, _⟩ := apply_ok_iff.mp h1
  obtain ⟨rfl, _⟩ := apply_ok_iff.mp h2
  omega

/-! ## Concrete request data used to instantiate the claims -/

/-- A well-formed single-output withdrawal request. -/
def wCfgPlan : PlanConfig :=
  { rpcURL := "http://node", walletID := "w", coinType := 0, account := 0,
    kind := .withdrawal, outputs := [⟨"addr", "60000", ""⟩],
    changeAddress := "chg", minConfirmations := 1, expiryOffset := 40,
    feeMultiplier := 0, feeAddZat := 0, minChangeZat := 5000 }

/-- Collaborator responses for `wCfgPlan`: one spendable 70000-unit
note with its resolved action and witness path. -/
def wEnvPlan : PlanEnv :=
  { chainInfo := ⟨"main", 7, 100⟩, cmxCount := 1,
    byOutpoint := [("a:0", ⟨"nf", "cm", "ek", "ct", 5⟩)],
    notes := [⟨"a", 0, 70000⟩],
    witnessResult := ⟨"root", [⟨5, ["p"]⟩]⟩ }

/-- The plan emitted for `wCfgPlan`. -/
def wOutPlan : PlanOutcome :=
  ((PlanModel wCfgPlan wEnvPlan).toOption).getD default

/-- A well-formed sweep request. -/
def wCfgSweep : SweepConfig :=
  { rpcURL := "http://node", walletID := "w", coinType := 0, account := 0,
    toAddress := "to", memoHex := "", changeAddress := "",
    minConfirmations := 1, expiryOffset := 40,
    feeMultiplier := 0, feeAddZat := 0 }

/-- Collaborator responses with two spendable notes, paths listed in
candidate order. -/
def wEnvSweep : PlanEnv :=
  { chainInfo := ⟨"main", 7, 100⟩, cmxCount := 2,
    byOutpoint := [("a:0", ⟨"nfa", "cma", "eka", "cta", 0⟩),
                   ("b:0", ⟨"nfb", "cmb", "ekb", "ctb", 1⟩)],
    notes := [⟨"a", 0, 70000⟩, ⟨"b", 0, 40000⟩],
    witnessResult := ⟨"root", [⟨0, ["p0"]⟩, ⟨1, ["p1"]⟩]⟩ }

/-- The plan emitted for `wCfgSweep`. -/
def wOutSweep : PlanOutcome :=
  ((PlanSweepModel wCfgSweep wEnvSweep).toOption).getD default

/-- A well-formed consolidation request. -/
def wCfgCons : ConsolidateConfig :=
  { rpcURL := "http://node", walletID := "w", coinType := 0, account := 0,
    toAddress := "to", memoHex := "", changeAddress := "",
    maxSpends := 50, minConfirmations := 1, expiryOffset := 40,
    feeMultiplier := 0, feeAddZat := 0 }

/-- Collaborator responses with two spendable notes, paths listed in
the selector's ascending order. -/
def wEnvCons : PlanEnv :=
  { chainInfo := ⟨"main", 7, 100⟩, cmxCount := 2,
    byOutpoint := [("a:0", ⟨"nfa", "cma", "eka", "cta", 0⟩),
                   ("b:0", ⟨"nfb", "cmb", "ekb", "ctb", 1⟩)],
    notes := [⟨"a", 0, 70000⟩, ⟨"b", 0, 40000⟩],
    witnessResult := ⟨"root", [⟨1, ["p1"]⟩, ⟨0, ["p0"]⟩]⟩ }

/-- The plan emitted for `wCfgCons`. -/
def wOutCons : PlanOutcome :=
  ((PlanConsolidateModel wCfgCons wEnvCons).toOption).getD default

/-- An environment with a single spendable note. -/
def wEnvOneNote : PlanEnv :=
  { chainInfo := ⟨"main", 7, 100⟩, cmxCount := 1,
    byOutpoint := [("a:0", ⟨"nf", "cm", "ek", "ct", 5⟩)],
    notes := [⟨"a", 0, 70000⟩],
    witnessResult := ⟨"root", [⟨5, ["p"]⟩]⟩ }

/-- `wCfgPlan` with the smallest non-default expiry offset. -/
def wCfgPlanOffset1 : PlanConfig :=
  { wCfgPlan with expiryOffset := 1 }

/-- A withdrawal request whose single output has a zero amount. -/
def wCfgZeroOutput : PlanConfig :=
  { wCfgPlan with outputs := [⟨"addr", "0", ""⟩] }

/-! ## The claims -/

/-- C1: For every successfully emitted plan (Plan, PlanSweep,
PlanConsolidate), the sum of the selected input note values equals the
sum of the output amounts plus the reported fee plus a non-negative
change value; and when dust suppression is enabled (min_change > 0),
that change is either 0 or at least min_change.  For sweep and
consolidate the output amount is the builder's `totalOutZat` and
change is 0 by the stated equation. -/
theorem claim_C1 :
    (∀ (cfg : PlanConfig) (env : PlanEnv) (out : PlanOutcome),
      PlanModel cfg env = .ok out →
      parsedSumFrom 0 out.plan.outputs = some out.totalOutZat ∧
      sumVals out.selected =
        out.totalOutZat + out.plan.feeZat +
          (sumVals out.selected - out.totalOutZat - out.plan.feeZat) ∧
      (0 < cfg.minChangeZat →
        (sumVals out.selected - out.totalOutZat - out.plan.feeZat = 0 ∨
          cfg.minChangeZat ≤
            sumVals out.selected - out.totalOutZat - out.plan.feeZat))) ∧
    (∀ (cfg : SweepConfig) (env : PlanEnv) (out : PlanOutcome),
      PlanSweepModel cfg env = .ok out →
      sumVals out.selected = out.totalOutZat + out.plan.feeZat) ∧
    (∀ (cfg : ConsolidateConfig) (env : PlanEnv) (out : PlanOutcome),
      PlanConsolidateModel cfg env = .ok out →
      sumVals out.selected = out.totalOutZat + out.plan.feeZat) := by
  refine ⟨fun cfg env out h => ?_,
    fun cfg env out h => sweepModel_sound h,
    fun cfg env out h => consolidateModel_sound h⟩
  obtain ⟨hps, hfit, hdust⟩ := planModel_sound h
  exact ⟨hps, by omega, hdust⟩

/-- Witness for C1 at concrete requests: the three builders succeed on
`wCfgPlan`/`wCfgSweep`/`wCfgCons` and the accounting equation holds on
each emitted plan. -/
theorem claim_C1_witness :
    (parsedSumFrom 0 wOutPlan.plan.outputs = some wOutPlan.totalOutZat ∧
      sumVals wOutPlan.selected =
        wOutPlan.totalOutZat + wOutPlan.plan.feeZat +
          (sumVals wOutPlan.selected - wOutPlan.totalOutZat -
            wOutPlan.plan.feeZat) ∧
      (0 < wCfgPlan.minChangeZat →
        (sumVals wOutPlan.selected - wOutPlan.totalOutZat -
            wOutPlan.plan.feeZat = 0 ∨
          wCfgPlan.minChangeZat ≤
            sumVals wOutPlan.selected - wOutPlan.totalOutZat -
              wOutPlan.plan.feeZat))) ∧
    (sumVals wOutSweep.selected =
      wOutSweep.totalOutZat + wOutSweep.plan.feeZat) ∧
    (sumVals wOutCons.selected =
      wOutCons.totalOutZat + wOutCons.plan.feeZat) :=
  ⟨claim_C1.1 wCfgPlan wEnvPlan wOutPlan (by decide),
   claim_C1.2.1 wCfgSweep wEnvSweep wOutSweep (by decide),
   claim_C1.2.2 wCfgCons wEnvCons wOutCons (by decide)⟩

/-- C2: The selector tries the five strategies in order and returns
the result of the first that succeeds: formally, the transcription of
`SelectNotesWithFeePolicy` coincides (for every input) with the
specified cascade `SelectCascadeSpec`, whose stages are the named
strategies 1–5 with first-success-wins sequencing over the ascending
order (value, then txid, then action index). -/
theorem claim_C2 :
    ∀ (notes : List UnspentNote) (amountZat outputCount : Nat)
      (p : FeePolicy),
      SelectNotesWithFeePolicy notes amountZat outputCount p =
        SelectCascadeSpec notes amountZat outputCount p :=
  select_eq_cascade

/-- C3: The claim states `expiry_height = (anchor_height + 1) +
expiry_offset` with `expiry_offset ≥ 4` enforced, as the repository's
changelog (v1.6.0), CLI help and `ExpiryHeightFromTip` unit tests
demand; the `txbuild.go` under verification instead emits
`anchor_height + expiry_offset` and accepts offsets below 4.  At
anchor height 100 with offset 40 the emitted plan carries expiry 140
where the specification requires 141, and an offset of 1 is accepted
with expiry 101 instead of being rejected. -/
theorem claim_C3 :
    (PlanModel wCfgPlan wEnvPlan).map (fun o => o.plan.expiryHeight) =
        .ok 140 ∧
    (PlanModel wCfgPlanOffset1 wEnvPlan).map (fun o => o.plan.expiryHeight) =
        .ok 101 ∧
    planExpiryHeight 100 40 = .ok 140 ∧
    planExpiryHeight 100 1 = .ok 101 ∧
    ExpiryHeightFromTip 100 40 = .ok 141 ∧
    ExpiryHeightFromTip 100 1 = .error "expiry offset must be >= 4" ∧
    ExpiryHeightFromTip U32MAX 40 = .error "expiry height overflow" := by
  decide

/-- C4: `RequiredFeeSend(n, o)` is `5000 · max(n, o, 2)`;
`FeePolicy.Apply` returns `max(multiplier, 1) · base + add`, failing
with overflow exactly when that value exceeds the u64 range; and the
applied fee is monotone in the multiplier and in the additive
adjustment. -/
theorem claim_C4 :
    (∀ n o, RequiredFeeSend n o = 5000 * max (max n o) 2) ∧
    (∀ m a base v, FeePolicy.Apply ⟨m, a⟩ base = .ok v ↔
      (v = max m 1 * base + a ∧ max m 1 * base + a ≤ U64MAX)) ∧
    (∀ m a base e, FeePolicy.Apply ⟨m, a⟩ base = .error e ↔
      (e = .overflow ∧ max m 1 * base + a > U64MAX)) ∧
    (∀ m1 m2 a base v1 v2, m1 ≤ m2 →
      FeePolicy.Apply ⟨m1, a⟩ base = .ok v1 →
      FeePolicy.Apply ⟨m2, a⟩ base = .ok v2 → v1 ≤ v2) ∧
    (∀ m a1 a2 base v1 v2, a1 ≤ a2 →
      FeePolicy.Apply ⟨m, a1⟩ base = .ok v1 →
      FeePolicy.Apply ⟨m, a2⟩ base = .ok v2 → v1 ≤ v2) :=
  ⟨fun n o => requiredFeeSend_eq n o,
   fun _ _ _ _ => apply_ok_iff,
   fun _ _ _ e => apply_error_iff e,
   fun _ _ _ _ _ _ hm h1 h2 => apply_mono_mult hm h1 h2,
   fun _ _ _ _ _ _ ha h1 h2 => apply_mono_add ha h1 h2⟩

/-- Witness for C4 at concrete fee computations. -/
theorem claim_C4_witness :
    RequiredFeeSend 3 1 = 5000 * max (max 3 1) 2 ∧
    FeePolicy.Apply ⟨2, 5⟩ 10000 = .ok 20005 ∧
    (10000 : Nat) ≤ 20000 :=
  ⟨claim_C4.1 3 1,
   (claim_C4.2.1 2 5 10000 20005).mpr (by decide),
   claim_C4.2.2.2.1 1 2 0 10000 10000 20000 (by decide) (by decide)
     (by decide)⟩

/-- C5 counterexample: with dust suppression disabled (min_change =
0), `SuppressDustChange` returns immediately without validating the
totals, so `total_in < total_out` does not produce the claimed
invalid-totals error. -/
theorem claim_C5_counterexample :
    SuppressDustChange 0 1 0 0 = .ok (0, false) := by
  decide

/-- C5 (amended): when dust suppression is enabled (min_change > 0),
`SuppressDustChange` fails with invalid-totals whenever
`total_in < total_out` or `fee > total_in − total_out`; it returns
`fee + change` and signals suppressed when the change lies in
`(0, min_change)`; otherwise it passes the fee through unsuppressed;
and when `min_change = 0` it is an unconditional no-op. -/
theorem claim_C5_amended :
    (∀ tin tout fee, SuppressDustChange tin tout fee 0 = .ok (fee, false)) ∧
    (∀ tin tout fee mc, 0 < mc →
      (tin < tout ∨ (tout ≤ tin ∧ tin - tout < fee)) →
      SuppressDustChange tin tout fee mc = .error .invalidTotals) ∧
    (∀ tin tout fee mc, 0 < mc → tout ≤ tin → fee ≤ tin - tout →
      (tin - tout - fee = 0 ∨ mc ≤ tin - tout - fee) →
      SuppressDustChange tin tout fee mc = .ok (fee, false)) ∧
    (∀ tin tout fee mc, 0 < mc → tout ≤ tin → fee ≤ tin - tout →
      tin ≤ U64MAX → 0 < tin - tout - fee → tin - tout - fee < mc →
      SuppressDustChange tin tout fee mc =
        .ok (fee + (tin - tout - fee), true)) :=
  ⟨fun tin tout fee => suppressDust_minChange_zero tin tout fee,
   fun _ _ _ _ hmc h => suppressDust_invalid hmc h,
   fun _ _ _ _ hmc h1 h2 h3 => suppressDust_pass hmc h1 h2 h3,
   fun _ _ _ _ hmc h1 h2 htin h3 h4 =>
     suppressDust_suppress hmc h1 h2 htin h3 h4⟩

/-- Witness for C5 (amended) at the spec's S5 scenario and at an
invalid-totals input. -/
theorem claim_C5_amended_witness :
    SuppressDustChange 100001 90000 10000 5000 =
      .ok (10000 + (100001 - 90000 - 10000), true) ∧
    SuppressDustChange 5 10 0 1 = .error .invalidTotals :=
  ⟨claim_C5_amended.2.2.2 100001 90000 10000 5000 (by decide) (by decide)
     (by decide) (by decide) (by decide) (by decide),
   claim_C5_amended.2.1 5 10 0 1 (by decide) (by decide)⟩

/-- C6: The consolidation selector examines `k` from
`min(max_spends, len)` down to 2 and, within each `k`, partitions `t`
from `k` down to 0 (the `t` smallest and `k − t` largest notes in the
canonical order), returning the first `(k, t)` whose total strictly
exceeds the policy-applied fee for `k` spends and 1 output — formally,
whenever the note total fits u64 and the fee application at the
largest `k` succeeds, the selector equals the first-match search over
`consOrder`; it fails with insufficient funds when no `(k, t)`
qualifies, and `PlanConsolidate` fails as an invalid request when
fewer than 2 spendable notes exist. -/
theorem claim_C6 :
    (∀ (notes : List UnspentNote) (maxSpends : Int) (p : FeePolicy),
      sumVals notes ≤ U64MAX →
      (∃ v, p.Apply
        (RequiredFeeSend (consKmaxEff notes.length maxSpends).toNat 1) =
          .ok v) →
      selectNotesForConsolidation notes maxSpends p =
        (if consKmaxEff notes.length maxSpends < 2 then
          .error (.coded .invalidRequest "max_spends must be >= 2")
        else
          match (consOrder (consKmaxEff notes.length maxSpends).toNat).find?
              (consQualifies (sortNotesAsc notes) p) with
          | some kt => .ok (consSelection (sortNotesAsc notes) kt,
              appliedFeeK p kt.1)
          | none =>
            .error (.coded .insufficientBalance "insufficient funds"))) ∧
    (∀ (cfg : ConsolidateConfig) (env : PlanEnv),
      goIsEmpty (goTrim cfg.rpcURL) = false →
      goIsEmpty (goTrim cfg.walletID) = false →
      goIsEmpty (goTrim cfg.toAddress) = false →
      (∃ ct, resolveCoinType cfg.coinType env.chainInfo.chain = .ok ct) →
      (∃ ah, anchorHeightOf env.chainInfo.height = .ok ah) →
      ¬ env.cmxCount = 0 →
      env.notes.length < 2 →
      PlanConsolidateModel cfg env =
        .error (.coded .invalidRequest
          "not enough spendable notes to consolidate")) :=
  ⟨fun notes ms p hsum happ =>
     selectNotesForConsolidation_eq notes ms p hsum happ,
   fun _ _ h1 h2 h3 hct hah hcmx hlen =>
     consolidateModel_too_few h1 h2 h3 hct hah hcmx hlen⟩

/-- Witness for C6: on notes of 70000 and 40000 units with a cap of
50, the search settles on `k = 2, t = 2` (both notes, ascending) with
fee 10000; and a consolidation request over a single note fails as an
invalid request. -/
theorem claim_C6_witness :
    selectNotesForConsolidation
        [⟨"a", 0, 70000⟩, ⟨"b", 0, 40000⟩] 50 ⟨0, 0⟩ =
      .ok ([⟨"b", 0, 40000⟩, ⟨"a", 0, 70000⟩], 10000) ∧
    PlanConsolidateModel wCfgCons wEnvOneNote =
      .error (.coded .invalidRequest
        "not enough spendable notes to consolidate") := by
  constructor
  · have h := claim_C6.1 [⟨"a", 0, 70000⟩, ⟨"b", 0, 40000⟩] 50 ⟨0, 0⟩
      (by decide) ⟨10000, by decide⟩
    rw [h]
    decide
  · exact claim_C6.2 wCfgCons wEnvOneNote (by decide) (by decide) (by decide)
      ⟨8133, by decide⟩ ⟨100, by decide⟩ (by decide) (by decide)

/-- C7: `ParseZECToZat` accepts a non-negative decimal with one
optional dot and at most 8 fractional digits, pads the fraction to 8,
and maps "0.24985000" to 24985000; negatives, more than 8 decimals and
an oversized whole part are rejected.  The overflow claim fails: the
guard only bounds the whole part (`w ≤ ⌊u64max / 10^8⌋`), so
"184467440737.09551616" — whose value 184467440737·10^8 + 9551616 is
exactly 2^64 — passes the guard and the addition wraps silently to
`.ok 0` instead of failing. -/
theorem claim_C7 :
    ParseZECToZat "0.24985000" = .ok 24985000 ∧
    ParseZECToZat "-1" = .error .negative ∧
    ParseZECToZat "1.123456789" = .error .tooManyDecimals ∧
    ParseZECToZat "18446744073709551616" = .error .outOfRange ∧
    184467440737 * 100000000 + 9551616 = U64MAX + 1 ∧
    ParseZECToZat "184467440737.09551616" = .ok 0 := by
  decide

/-- C8 counterexample: on the §8 scenario S2 — notes `[70000, 1000]`,
amount 60000, two outputs — the canonical cascade selects the 70000
note with fee 10000 (the claimed expectation), but the historical
greedy selector never accepts it (70000 is neither strictly above the
with-change need 70000 nor equal with matching no-change fee) and
fails with insufficient funds, so the two variants do not agree on the
§8 scenarios. -/
theorem claim_C8_counterexample :
    SelectNotesWithFeePolicy
        [⟨"a", 0, 70000⟩, ⟨"b", 0, 1000⟩] 60000 2 ⟨0, 0⟩ =
      .ok ([⟨"a", 0, 70000⟩], 10000) ∧
    LegacySelectNotesWithFeePolicy
        [⟨"a", 0, 70000⟩, ⟨"b", 0, 1000⟩] 60000 2 ⟨0, 0⟩ =
      .error .insufficientFunds := by
  decide

/-- C8 (amended): the cascade and the historical greedy selector agree
on scenarios S1 (both 60000-notes, fee 10000), S3 (all three
25000-notes, fee 15000) and — up to the order of the selected notes —
S4 (both notes, fee 20000 under multiplier 2); they diverge on S2,
where the cascade returns the 70000 note with fee 10000 and the greedy
selector fails with insufficient funds. -/
theorem claim_C8_amended :
    (SelectNotesWithFeePolicy
          [⟨"a", 0, 60000⟩, ⟨"b", 0, 60000⟩] 60000 1 ⟨0, 0⟩ =
        .ok ([⟨"a", 0, 60000⟩, ⟨"b", 0, 60000⟩], 10000) ∧
      LegacySelectNotesWithFeePolicy
          [⟨"a", 0, 60000⟩, ⟨"b", 0, 60000⟩] 60000 1 ⟨0, 0⟩ =
        .ok ([⟨"a", 0, 60000⟩, ⟨"b", 0, 60000⟩], 10000)) ∧
    (SelectNotesWithFeePolicy
          [⟨"a", 0, 25000⟩, ⟨"b", 0, 25000⟩, ⟨"c", 0, 25000⟩] 60000 2
          ⟨0, 0⟩ =
        .ok ([⟨"a", 0, 25000⟩, ⟨"b", 0, 25000⟩, ⟨"c", 0, 25000⟩], 15000) ∧
      LegacySelectNotesWithFeePolicy
          [⟨"a", 0, 25000⟩, ⟨"b", 0, 25000⟩, ⟨"c", 0, 25000⟩] 60000 2
          ⟨0, 0⟩ =
        .ok ([⟨"a", 0, 25000⟩, ⟨"b", 0, 25000⟩, ⟨"c", 0, 25000⟩], 15000)) ∧
    ((SelectNotesWithFeePolicy
          [⟨"a", 0, 75000⟩, ⟨"b", 0, 10000⟩] 60000 1 ⟨2, 0⟩).map
        (fun r => (sortNotesAsc r.1, r.2)) =
      (LegacySelectNotesWithFeePolicy
          [⟨"a", 0, 75000⟩, ⟨"b", 0, 10000⟩] 60000 1 ⟨2, 0⟩).map
        (fun r => (sortNotesAsc r.1, r.2))) ∧
    (SelectNotesWithFeePolicy
          [⟨"a", 0, 70000⟩, ⟨"b", 0, 1000⟩] 60000 2 ⟨0, 0⟩ =
        .ok ([⟨"a", 0, 70000⟩], 10000) ∧
      LegacySelectNotesWithFeePolicy
          [⟨"a", 0, 70000⟩, ⟨"b", 0, 1000⟩] 60000 2 ⟨0, 0⟩ =
        .error .insufficientFunds) := by
  decide

/-- C9: The canonical cascade never mutates its argument — both sorts
run on freshly copied slices, so the caller's candidate list holds the
same elements in the same order after every call — whereas the
historical selector sorts the caller's slice in place, leaving it in
descending order. -/
theorem claim_C9 :
    ∀ (notes : List UnspentNote) (amountZat outputCount : Nat)
      (p : FeePolicy),
      selectCallerNotesAfter notes amountZat outputCount p = notes ∧
      legacyCallerNotesAfter notes amountZat outputCount p =
        sortNotesDesc notes :=
  fun _ _ _ _ => ⟨rfl, rfl⟩

/-- C10: Whenever some output's amount string fails to parse as a
decimal u64 or parses to 0, `Plan` fails with an invalid-request error
whose message does not depend on the environment: the validation loop
rejects the request before any collaborator response is consulted, and
zero-valued outputs are never accepted. -/
theorem claim_C10 :
    ∀ cfg : PlanConfig, (∃ o ∈ cfg.outputs, badAmount o) →
      ∃ msg, ∀ env : PlanEnv,
        PlanModel cfg env = .error (.coded .invalidRequest msg) :=
  fun _ hbad => planModel_bad_output hbad

/-- Witness for C10: a request whose single output has amount "0" is
rejected as invalid for every environment. -/
theorem claim_C10_witness :
    (∃ o ∈ wCfgZeroOutput.outputs, badAmount o) ∧
    ∃ msg, ∀ env : PlanEnv,
      PlanModel wCfgZeroOutput env = .error (.coded .invalidRequest msg) :=
  ⟨⟨⟨"addr", "0", ""⟩, List.mem_singleton.mpr rfl,
     by unfold badAmount; exact rfl⟩,
   claim_C10 wCfgZeroOutput
     ⟨⟨"addr", "0", ""⟩, List.mem_singleton.mpr rfl,
       by unfold badAmount; exact rfl⟩⟩

end JunoTxbuild
